import Mathlib

/-!
# ops-api: group authorization service and directory connector

A shallow embedding of `service/group.go` and `service/ldap.go`.

The service functions orchestrate external collaborators (a gorm transaction on
MySQL, the `dao` layer, the casbin enforcer, an LDAP connection).  The embedding
passes an explicit `World` through every call.  Each collaborator call

* appends one `Call` (with its arguments) to `World.log`, so the order and the
  arguments of the calls a service function makes can be read off afterwards;
* may fail: a `Faults` oracle says, per kind of call, whether the collaborator
  reports an error, in which case the call has no effect;
* otherwise has its effect on the relational state.

The Go control flow (every `if err != nil` branch, with or without
`tx.Rollback()`) is transcribed statement by statement.
-/

namespace OpsApi

/-! ## Data model -/

/-- Go `error` values met by the two services: the four `errors.New` values of the
sources, gorm's `ErrRecordNotFound`, the run-time panic of an index out of range, and
errors reported by a collaborator. -/
inductive Err where
  | recordNotFound
  | emptyUsers
  | notRoleGroup
  | userNotExist
  | badCredentials
  | indexOutOfRange
  | ext (msg : String)
deriving DecidableEq, Repr

/-- The fields of `model.AuthUser` that the services read or write. -/
structure AuthUser where
  ID : Nat
  Username : String
  Name : String
  Email : String
  Password : String
  IsActive : Bool
  PhoneNumber : String
  UserFrom : String
deriving DecidableEq, Repr

/-- The fields of `model.AuthGroup` that the services read or write; `Users` is the
many-to-many membership. -/
structure AuthGroup where
  ID : Nat
  Name : String
  IsRoleGroup : Bool
  Users : List AuthUser
deriving DecidableEq, Repr

/-- A casbin role as the policy tables hold it: its name, the usernames bound to
it, and its menu and path permissions. -/
structure PolicyRole where
  name : String
  members : List String
  menus : List String
  paths : List String
deriving DecidableEq, Repr

/-- The relational state: the `auth_group` rows with their membership, the
`auth_user` rows, and the policy rows the casbin adapter keeps in the same
database. -/
structure Store where
  groups : List AuthGroup
  users : List AuthUser
  roles : List PolicyRole
deriving DecidableEq, Repr

/-- Request body of `UpdateGroup`. -/
structure GroupUpdate where
  ID : Nat
  Name : String
deriving DecidableEq, Repr

/-- Request body of `UpdateGroupUser`. -/
structure GroupUpdateUser where
  ID : Nat
  Users : List Nat
deriving DecidableEq, Repr

/-- Request body of `UpdateGroupPermission`. -/
structure GroupUpdatePermission where
  ID : Nat
  MenuPermissions : List String
  PathPermissions : List String
deriving DecidableEq, Repr

/-! ## Collaborator calls -/

/-- The kinds of collaborator call that can report an error. -/
inductive Op where
  | First
  | Find
  | SelectUsernames
  | GroupDeleteGroup
  | GroupUpdateGroup
  | GroupUpdateGroupUser
  | DeleteRole
  | UpdateRoleName
  | UpdateRolePermission
  | UpdateRoleUser
  | Commit
  | LoadPolicy
deriving DecidableEq, Repr

/-- One collaborator call, with the arguments the service passed. `First` records
whether the read went through the transaction handle (`tx.First`) or through the
global client (`global.MySQLClient.First`). -/
inductive Call where
  | Begin
  | First (viaTx : Bool) (id : Nat)
  | Find (ids : List Nat)
  | SelectUsernames (ids : List Nat)
  | GroupDeleteGroup (group : AuthGroup)
  | GroupUpdateGroup (group : AuthGroup)
  | GroupUpdateGroupUser (group : AuthGroup) (users : List AuthUser)
  | DeleteRole (name : String)
  | UpdateRoleName (oldName newName : String)
  | UpdateRolePermission (name : String) (menus paths : List String)
  | UpdateRoleUser (name : String) (usernames : List String)
  | Commit
  | Rollback
  | LoadPolicy
deriving DecidableEq, Repr

/-- The failure oracle: for each kind of call, the error the collaborator reports,
if any. -/
abbrev Faults := Op → Option Err

/-- The state threaded through a service call: the committed relational state, the
working copy of the open transaction (if one is open), the policy the enforcer has
in memory, and the log of collaborator calls, oldest first. -/
structure World where
  db : Store
  tx : Option Store
  enforcer : List PolicyRole
  log : List Call
deriving DecidableEq, Repr

/-- Append a call to the log. -/
def World.record (w : World) (c : Call) : World :=
  { w with log := w.log ++ [c] }

/-- What a statement running on the transaction handle sees: the working copy of the
open transaction, or the committed state when none is open. -/
def World.view (w : World) : Store :=
  match w.tx with
  | some s => s
  | none => w.db

/-- A write issued on the transaction handle: it changes the working copy, and is
not visible in `db` before `Commit`. -/
def World.write (w : World) (f : Store → Store) : World :=
  match w.tx with
  | some s => { w with tx := some (f s) }
  | none => { w with db := f w.db }

/-- `global.MySQLClient.Begin()`: opens a transaction on the committed state. -/
def Begin (w : World) : World :=
  { (w.record Call.Begin) with tx := some w.db }

/-- `tx.Rollback()`: discards the working copy. The services ignore its result. -/
def Rollback (w : World) : World :=
  { (w.record Call.Rollback) with tx := none }

/-- `tx.Commit().Error`: on success the working copy becomes the committed state. -/
def Commit (env : Faults) (w : World) : Except Err Unit × World :=
  let w := w.record Call.Commit
  match env Op.Commit with
  | some e => (Except.error e, w)
  | none =>
    match w.tx with
    | some s => (Except.ok (), { w with db := s, tx := none })
    | none => (Except.ok (), w)

/-- `global.CasBinServer.LoadPolicy()`: the enforcer reloads the committed policy
rows. -/
def LoadPolicy (env : Faults) (w : World) : Except Err Unit × World :=
  let w := w.record Call.LoadPolicy
  match env Op.LoadPolicy with
  | some e => (Except.error e, w)
  | none => (Except.ok (), { w with enforcer := w.db.roles })

/-- The row lookup of gorm's `First(group, id)`: the first `auth_group` row with
that primary key, `ErrRecordNotFound` when there is none. `First` fills the columns
of the row only: without `Preload` the `Users` association of the value stays empty. -/
def firstGroup (s : Store) (id : Nat) : Except Err AuthGroup :=
  match s.groups.find? (fun g => g.ID == id) with
  | some g => Except.ok { g with Users := [] }
  | none => Except.error Err.recordNotFound

/-- `tx.First(group, id).Error`. -/
def txFirst (env : Faults) (id : Nat) (w : World) : Except Err AuthGroup × World :=
  let w := w.record (Call.First true id)
  match env Op.First with
  | some e => (Except.error e, w)
  | none => (firstGroup w.view id, w)

/-- `global.MySQLClient.First(group, id).Error`: the same lookup outside the
transaction, on the committed state. -/
def clientFirst (env : Faults) (id : Nat) (w : World) : Except Err AuthGroup × World :=
  let w := w.record (Call.First false id)
  match env Op.First with
  | some e => (Except.error e, w)
  | none => (firstGroup w.db id, w)

/-- `tx.Find(&users, ids).Error`: gorm selects the rows whose primary key is in
`ids`. Ids that match no row are not an error: `Find` returns the rows it found. -/
def txFind (env : Faults) (ids : List Nat) (w : World) : Except Err (List AuthUser) × World :=
  let w := w.record (Call.Find ids)
  match env Op.Find with
  | some e => (Except.error e, w)
  | none => (Except.ok (w.view.users.filter (fun u => decide (u.ID ∈ ids))), w)

/-! ## The `dao` layer

`ops-api/dao` is called by the services but is not part of the sources at hand. Its
effects on the relational state are modelled from the specification; the services'
own control flow never depends on them, only on whether a call reports an error. -/

/-- Modelled from the spec: `dao.Group.DeleteGroup`, which is not in the sources.
"delete relational group row and its membership rows". -/
def daoGroupDeleteGroup (env : Faults) (group : AuthGroup) (w : World) : Except Err Unit × World :=
  let w := w.record (Call.GroupDeleteGroup group)
  match env Op.GroupDeleteGroup with
  | some e => (Except.error e, w)
  | none => (Except.ok (), w.write (fun s =>
      { s with groups := s.groups.filter (fun g => g.ID != group.ID) }))

/-- Modelled from the spec: `dao.Group.UpdateGroup`, which is not in the sources.
It stores the row it is given (the "relational rename") and returns it. -/
def daoGroupUpdateGroup (env : Faults) (group : AuthGroup) (w : World) :
    Except Err AuthGroup × World :=
  let w := w.record (Call.GroupUpdateGroup group)
  match env Op.GroupUpdateGroup with
  | some e => (Except.error e, w)
  | none => (Except.ok group, w.write (fun s =>
      { s with groups := s.groups.map (fun g =>
          if g.ID == group.ID then { g with Name := group.Name } else g) }))

/-- Modelled from the spec: `dao.Group.UpdateGroupUser`, which is not in the sources.
"replace the relational membership set": the group's members become `users`. -/
def daoGroupUpdateGroupUser (env : Faults) (group : AuthGroup) (users : List AuthUser)
    (w : World) : Except Err AuthGroup × World :=
  let w := w.record (Call.GroupUpdateGroupUser group users)
  match env Op.GroupUpdateGroupUser with
  | some e => (Except.error e, w)
  | none => (Except.ok { group with Users := users }, w.write (fun s =>
      { s with groups := s.groups.map (fun g =>
          if g.ID == group.ID then { g with Users := users } else g) }))

/-- Modelled from the spec: `dao.CasBin.DeleteRole`, which is not in the sources.
"delete the mirrored PolicyStore role by name (idempotent — absence of the role is
not an error)". -/
def daoCasBinDeleteRole (env : Faults) (name : String) (w : World) : Except Err Unit × World :=
  let w := w.record (Call.DeleteRole name)
  match env Op.DeleteRole with
  | some e => (Except.error e, w)
  | none => (Except.ok (), w.write (fun s =>
      { s with roles := s.roles.filter (fun r => r.name != name) }))

/-- Modelled from the spec: `dao.CasBin.UpdateRoleName`, which is not in the sources.
"rename the PolicyStore role (old name → new name)". -/
def daoCasBinUpdateRoleName (env : Faults) (oldName newName : String) (w : World) :
    Except Err Unit × World :=
  let w := w.record (Call.UpdateRoleName oldName newName)
  match env Op.UpdateRoleName with
  | some e => (Except.error e, w)
  | none => (Except.ok (), w.write (fun s =>
      { s with roles := s.roles.map (fun r =>
          if r.name == oldName then { r with name := newName } else r) }))

/-- Replace the permissions of role `name`, creating the role when it is absent. -/
def setRolePermissions (name : String) (menus paths : List String) :
    List PolicyRole → List PolicyRole
  | [] => [{ name := name, members := [], menus := menus, paths := paths }]
  | r :: rs =>
    if r.name == name then { r with menus := menus, paths := paths } :: rs
    else r :: setRolePermissions name menus paths rs

/-- Replace the members of role `name`, creating the role when it is absent. -/
def setRoleMembers (name : String) (usernames : List String) :
    List PolicyRole → List PolicyRole
  | [] => [{ name := name, members := usernames, menus := [], paths := [] }]
  | r :: rs =>
    if r.name == name then { r with members := usernames } :: rs
    else r :: setRoleMembers name usernames rs

/-- Modelled from the spec: `dao.CasBin.UpdateRolePermission`, which is not in the
sources. "Replaces the role's full permission set in PolicyStore". It takes no
transaction handle, so it writes the committed state. -/
def daoCasBinUpdateRolePermission (env : Faults) (name : String) (menus paths : List String)
    (w : World) : Except Err Unit × World :=
  let w := w.record (Call.UpdateRolePermission name menus paths)
  match env Op.UpdateRolePermission with
  | some e => (Except.error e, w)
  | none => (Except.ok (),
      { w with db := { w.db with roles := setRolePermissions name menus paths w.db.roles } })

/-- Modelled from the spec: `dao.CasBin.UpdateRoleUser`, which is not in the sources.
"replace the PolicyStore role's member set to exactly that username set (a full
replace, not an add/remove diff)". -/
def daoCasBinUpdateRoleUser (env : Faults) (name : String) (usernames : List String)
    (w : World) : Except Err Unit × World :=
  let w := w.record (Call.UpdateRoleUser name usernames)
  match env Op.UpdateRoleUser with
  | some e => (Except.error e, w)
  | none => (Except.ok (), w.write (fun s =>
      { s with roles := setRoleMembers name usernames s.roles }))

/-! ## `service/group.go` -/

/-- The usernames of the `auth_user` rows whose id is in `userIDs`: the rows of
`SELECT username FROM auth_user WHERE id IN (userIDs)`. -/
def usernamesOf (s : Store) (userIDs : List Nat) : List String :=
  (s.users.filter (fun u => decide (u.ID ∈ userIDs))).map (fun u => u.Username)

/-- `GetUserNamesFromIDs`. As in Go it returns a pair: `(nil, err)` when the query
fails, `(usernames, nil)` otherwise. -/
def GetUserNamesFromIDs (env : Faults) (userIDs : List Nat) (w : World) :
    (List String × Option Err) × World :=
  let w := w.record (Call.SelectUsernames userIDs)
  match env Op.SelectUsernames with
  | some e => (([], some e), w)
  | none => ((usernamesOf w.view userIDs, none), w)

/-- `group.DeleteGroup`. -/
def DeleteGroup (env : Faults) (id : Nat) (w : World) : Except Err Unit × World :=
  let w := Begin w
  match txFirst env id w with
  | (Except.error err, w) => (Except.error err, Rollback w)
  | (Except.ok group, w) =>
    match daoGroupDeleteGroup env group w with
    | (Except.error err, w) => (Except.error err, Rollback w)
    | (Except.ok _, w) =>
      match daoCasBinDeleteRole env group.Name w with
      | (Except.error err, w) => (Except.error err, Rollback w)
      | (Except.ok _, w) =>
        match Commit env w with
        | (Except.error err, w) => (Except.error err, Rollback w)
        | (Except.ok _, w) =>
          match LoadPolicy env w with
          | (Except.error err, w) => (Except.error err, w)
          | (Except.ok _, w) => (Except.ok (), w)

/-- `group.UpdateGroup`. The lookup goes through the global client, and the two
error returns before the commit do not call `tx.Rollback()`. The role rename is
issued for every group: the source does not test `IsRoleGroup` here, although its
comment speaks of role groups. -/
def UpdateGroup (env : Faults) (data : GroupUpdate) (w : World) : Except Err AuthGroup × World :=
  let w := Begin w
  match clientFirst env data.ID w with
  | (Except.error err, w) => (Except.error err, w)
  | (Except.ok group, w) =>
    match daoCasBinUpdateRoleName env group.Name data.Name w with
    | (Except.error err, w) => (Except.error err, w)
    | (Except.ok _, w) =>
      let group := { group with Name := data.Name }
      match daoGroupUpdateGroup env group w with
      | (Except.error err, w) => (Except.error err, w)
      | (Except.ok result, w) =>
        match Commit env w with
        | (Except.error err, w) => (Except.error err, Rollback w)
        | (Except.ok _, w) =>
          match LoadPolicy env w with
          | (Except.error err, w) => (Except.error err, w)
          | (Except.ok _, w) => (Except.ok result, w)

/-- `group.UpdateGroupPermission`. -/
def UpdateGroupPermission (env : Faults) (data : GroupUpdatePermission) (w : World) :
    Except Err Unit × World :=
  match clientFirst env data.ID w with
  | (Except.error err, w) => (Except.error err, w)
  | (Except.ok group, w) =>
    if !group.IsRoleGroup then (Except.error Err.notRoleGroup, w)
    else
      match daoCasBinUpdateRolePermission env group.Name data.MenuPermissions
          data.PathPermissions w with
      | (Except.error err, w) => (Except.error err, w)
      | (Except.ok _, w) =>
        match LoadPolicy env w with
        | (Except.error err, w) => (Except.error err, w)
        | (Except.ok _, w) => (Except.ok (), w)

/-- The block `if group.IsRoleGroup { ... }` of `UpdateGroupUser`: the usernames are
taken from `GetUserNamesFromIDs` with its error discarded (`usernames, _ := ...`),
and passed to `dao.CasBin.UpdateRoleUser`. The result is the error that makes
`UpdateGroupUser` return inside the block, if any. -/
def syncRoleUsers (env : Faults) (group : AuthGroup) (userIDs : List Nat) (w : World) :
    Except Err Unit × World :=
  if group.IsRoleGroup then
    match GetUserNamesFromIDs env userIDs w with
    | ((usernames, _), w) => daoCasBinUpdateRoleUser env group.Name usernames w
  else (Except.ok (), w)

/-- `group.UpdateGroupUser`. An empty id list is rejected (the comment above the test
in the source speaks of clearing the members; the code returns the error), and that
return does not call `tx.Rollback()`. -/
def UpdateGroupUser (env : Faults) (data : GroupUpdateUser) (w : World) :
    Except Err AuthGroup × World :=
  let w := Begin w
  match txFirst env data.ID w with
  | (Except.error err, w) => (Except.error err, Rollback w)
  | (Except.ok group, w) =>
    if data.Users.length = 0 then (Except.error Err.emptyUsers, w)
    else
      match txFind env data.Users w with
      | (Except.error err, w) => (Except.error err, Rollback w)
      | (Except.ok users, w) =>
        match daoGroupUpdateGroupUser env group users w with
        | (Except.error err, w) => (Except.error err, Rollback w)
        | (Except.ok result, w) =>
          match syncRoleUsers env group data.Users w with
          | (Except.error err, w) => (Except.error err, Rollback w)
          | (Except.ok _, w) =>
            match Commit env w with
            | (Except.error err, w) => (Except.error err, Rollback w)
            | (Except.ok _, w) =>
              match LoadPolicy env w with
              | (Except.error err, w) => (Except.error err, w)
              | (Except.ok _, w) => (Except.ok result, w)

/-! ## Library functions used by `LDAPUserResetPassword`

Go strings are byte sequences; the byte strings handled here (the password, the
encoded attribute values) are lists of bytes, each a natural number below 256. -/

/-- The bytes of an ASCII string literal. -/
def asciiBytes (s : String) : List Nat := s.toList.map Char.toNat

/-- Addition of two `uint64` words. -/
def add64 (a b : Nat) : Nat := (a + b) % 2 ^ 64

/-- Rotation of a `uint64` word to the right by `n` bits (`bits.RotateLeft64(x, -n)`). -/
def rotr64 (x n : Nat) : Nat := ((x >>> n) ||| (x <<< (64 - n))) % 2 ^ 64

/-- The round constants of SHA-512 (FIPS 180-4, 4.2.3). -/
def sha512K : List Nat := [
    0x428a2f98d728ae22, 0x7137449123ef65cd, 0xb5c0fbcfec4d3b2f, 0xe9b5dba58189dbbc,
    0x3956c25bf348b538, 0x59f111f1b605d019, 0x923f82a4af194f9b, 0xab1c5ed5da6d8118,
    0xd807aa98a3030242, 0x12835b0145706fbe, 0x243185be4ee4b28c, 0x550c7dc3d5ffb4e2,
    0x72be5d74f27b896f, 0x80deb1fe3b1696b1, 0x9bdc06a725c71235, 0xc19bf174cf692694,
    0xe49b69c19ef14ad2, 0xefbe4786384f25e3, 0x0fc19dc68b8cd5b5, 0x240ca1cc77ac9c65,
    0x2de92c6f592b0275, 0x4a7484aa6ea6e483, 0x5cb0a9dcbd41fbd4, 0x76f988da831153b5,
    0x983e5152ee66dfab, 0xa831c66d2db43210, 0xb00327c898fb213f, 0xbf597fc7beef0ee4,
    0xc6e00bf33da88fc2, 0xd5a79147930aa725, 0x06ca6351e003826f, 0x142929670a0e6e70,
    0x27b70a8546d22ffc, 0x2e1b21385c26c926, 0x4d2c6dfc5ac42aed, 0x53380d139d95b3df,
    0x650a73548baf63de, 0x766a0abb3c77b2a8, 0x81c2c92e47edaee6, 0x92722c851482353b,
    0xa2bfe8a14cf10364, 0xa81a664bbc423001, 0xc24b8b70d0f89791, 0xc76c51a30654be30,
    0xd192e819d6ef5218, 0xd69906245565a910, 0xf40e35855771202a, 0x106aa07032bbd1b8,
    0x19a4c116b8d2d0c8, 0x1e376c085141ab53, 0x2748774cdf8eeb99, 0x34b0bcb5e19b48a8,
    0x391c0cb3c5c95a63, 0x4ed8aa4ae3418acb, 0x5b9cca4f7763e373, 0x682e6ff3d6b2b8a3,
    0x748f82ee5defb2fc, 0x78a5636f43172f60, 0x84c87814a1f0ab72, 0x8cc702081a6439ec,
    0x90befffa23631e28, 0xa4506cebde82bde9, 0xbef9a3f7b2c67915, 0xc67178f2e372532b,
    0xca273eceea26619c, 0xd186b8c721c0c207, 0xeada7dd6cde0eb1e, 0xf57d4f7fee6ed178,
    0x06f067aa72176fba, 0x0a637dc5a2c898a6, 0x113f9804bef90dae, 0x1b710b35131c471b,
    0x28db77f523047d84, 0x32caab7b40c72493, 0x3c9ebe0a15c9bebc, 0x431d67c49c100d4c,
    0x4cc5d4becb3e42b6, 0x597f299cfc657e2a, 0x5fcb6fab3ad6faec, 0x6c44198c4a475817]

/-- The initial hash value of SHA-512 (FIPS 180-4, 5.3.5). -/
def sha512Init : List Nat := [0x6a09e667f3bcc908, 0xbb67ae8584caa73b, 0x3c6ef372fe94f82b, 0xa54ff53a5f1d36f1, 0x510e527fade682d1, 0x9b05688c2b3e6c1f, 0x1f83d9abfb41bd6b, 0x5be0cd19137e2179]

/-- The `len` bytes of `x`, most significant first. -/
def bigEndianBytes (len x : Nat) : List Nat :=
  (List.range len).map (fun i => (x >>> (8 * (len - 1 - i))) % 256)

/-- The word whose big-endian bytes are `bs`. -/
def bigEndianWord (bs : List Nat) : Nat := bs.foldl (fun acc b => acc * 256 + b) 0

/-- SHA-512 padding: the byte 0x80, zero bytes up to 112 modulo 128, and the bit
length of the message as a 128-bit big-endian number. -/
def sha512Pad (msg : List Nat) : List Nat :=
  let m := msg ++ [0x80]
  m ++ List.replicate ((128 - (m.length + 16) % 128) % 128) 0
    ++ bigEndianBytes 16 ((msg.length * 8) % 2 ^ 128)

/-- The message schedule of one 128-byte block: 16 words of the block, extended to
80 words. -/
def sha512Schedule (block : List Nat) : List Nat :=
  (List.range 64).foldl (fun w _ =>
    let t := w.length
    let w15 := w.getD (t - 15) 0
    let w2 := w.getD (t - 2) 0
    let s0 := rotr64 w15 1 ^^^ rotr64 w15 8 ^^^ (w15 >>> 7)
    let s1 := rotr64 w2 19 ^^^ rotr64 w2 61 ^^^ (w2 >>> 6)
    w ++ [add64 (add64 (add64 s1 (w.getD (t - 7) 0)) s0) (w.getD (t - 16) 0)])
    ((List.range 16).map (fun j => bigEndianWord ((block.drop (8 * j)).take 8)))

/-- One round of the SHA-512 compression function on the working variables
`[a, b, c, d, e, f, g, h]`, with round constant plus schedule word `kw`. -/
def sha512Round (v : List Nat) (kw : Nat) : List Nat :=
  match v with
  | [a, b, c, d, e, f, g, h] =>
    let t1 := add64 (add64 (add64 h (rotr64 e 14 ^^^ rotr64 e 18 ^^^ rotr64 e 41))
      ((e &&& f) ^^^ ((2 ^ 64 - 1 - e) &&& g))) kw
    let t2 := add64 (rotr64 a 28 ^^^ rotr64 a 34 ^^^ rotr64 a 39)
      ((a &&& b) ^^^ (a &&& c) ^^^ (b &&& c))
    [add64 t1 t2, a, b, c, add64 d t1, e, f, g]
  | _ => v

/-- The SHA-512 compression of one block into the hash value `h`. -/
def sha512Block (h : List Nat) (block : List Nat) : List Nat :=
  let v := (List.zipWith add64 sha512K (sha512Schedule block)).foldl sha512Round h
  List.zipWith add64 h v

/-- `sha512.New()`, `Write(msg)`, `Sum(nil)`: the 64-byte SHA-512 digest of `msg`. -/
def sha512Sum (msg : List Nat) : List Nat :=
  let padded := sha512Pad msg
  let h := (List.range (padded.length / 128)).foldl
    (fun h i => sha512Block h ((padded.drop (128 * i)).take 128)) sha512Init
  h.flatMap (bigEndianBytes 8)

/-- The alphabet of `base64.StdEncoding` (RFC 4648, table 1). -/
def base64Alphabet : List Nat :=
  asciiBytes "ABCDEFGHIJKLMNOPQRSTUVWXYZabcdefghijklmnopqrstuvwxyz0123456789+/"

/-- The character of a 6-bit value in the standard alphabet. -/
def base64Char (v : Nat) : Nat := base64Alphabet.getD (v % 64) 0

/-- `base64.StdEncoding.EncodeToString`: three bytes become four characters; a final
group of one or two bytes is padded with `=`. -/
def base64StdEncode : List Nat → List Nat
  | [] => []
  | [a] =>
    [base64Char (a >>> 2), base64Char ((a <<< 4) % 64), 0x3D, 0x3D]
  | [a, b] =>
    [base64Char (a >>> 2), base64Char (((a <<< 4) ||| (b >>> 4)) % 64),
     base64Char ((b <<< 2) % 64), 0x3D]
  | a :: b :: c :: rest =>
    [base64Char (a >>> 2), base64Char (((a <<< 4) ||| (b >>> 4)) % 64),
     base64Char (((b <<< 2) ||| (c >>> 6)) % 64), base64Char (c % 64)]
      ++ base64StdEncode rest

/-- `utf8.RuneError`, the replacement character. -/
def RuneError : Nat := 0xFFFD

/-- `utf8.DecodeRune`: the first rune of `p` and its width in bytes; ill-formed
input decodes to `(RuneError, 1)`, empty input to `(RuneError, 0)`. The ranges of the
first and second byte are those of the tables `first` and `acceptRanges`. -/
def DecodeRune (p : List Nat) : Nat × Nat :=
  match p with
  | [] => (RuneError, 0)
  | p0 :: rest =>
    if p0 < 0x80 then (p0, 1)
    else if p0 < 0xC2 ∨ 0xF4 < p0 then (RuneError, 1)
    else
      let sz := if p0 < 0xE0 then 2 else if p0 < 0xF0 then 3 else 4
      let lo := if p0 = 0xE0 then 0xA0 else if p0 = 0xF0 then 0x90 else 0x80
      let hi := if p0 = 0xED then 0x9F else if p0 = 0xF4 then 0x8F else 0xBF
      if p.length < sz then (RuneError, 1)
      else
        let b1 := rest.getD 0 0
        if b1 < lo ∨ hi < b1 then (RuneError, 1)
        else if sz ≤ 2 then (((p0 &&& 0x1F) <<< 6) ||| (b1 &&& 0x3F), 2)
        else
          let b2 := rest.getD 1 0
          if b2 < 0x80 ∨ 0xBF < b2 then (RuneError, 1)
          else if sz ≤ 3 then
            (((p0 &&& 0x0F) <<< 12) ||| ((b1 &&& 0x3F) <<< 6) ||| (b2 &&& 0x3F), 3)
          else
            let b3 := rest.getD 2 0
            if b3 < 0x80 ∨ 0xBF < b3 then (RuneError, 1)
            else
              (((p0 &&& 0x07) <<< 18) ||| ((b1 &&& 0x3F) <<< 12) ||| ((b2 &&& 0x3F) <<< 6)
                ||| (b3 &&& 0x3F), 4)

/-- The UTF-16 little-endian bytes of one rune: two bytes for a rune up to 0xFFFF, a
surrogate pair (`utf16.EncodeRune`) above. -/
def utf16leRune (r : Nat) : List Nat :=
  if r ≤ 0xFFFF then [r % 256, r >>> 8]
  else
    let r1 := 0xD800 + (((r - 0x10000) >>> 10) &&& 0x3FF)
    let r2 := 0xDC00 + ((r - 0x10000) &&& 0x3FF)
    [r1 % 256, r1 >>> 8, r2 % 256, r2 >>> 8]

/-- The loop of the UTF-16 encoder's `Transform` at end of input: decode one rune
(a byte below 0x80 directly, otherwise with `DecodeRune`), emit it, advance by its
width. `fuel` bounds the number of iterations. -/
def utf16leLoop : Nat → List Nat → List Nat
  | 0, _ => []
  | _ + 1, [] => []
  | fuel + 1, b :: rest =>
    let rs := if b < 0x80 then (b, 1) else DecodeRune (b :: rest)
    utf16leRune rs.1 ++ utf16leLoop fuel ((b :: rest).drop rs.2)

/-- `unicode.UTF16(unicode.LittleEndian, unicode.IgnoreBOM).NewEncoder().String(s)`:
the UTF-16 little-endian encoding of `s`, without byte order mark. Each iteration
consumes at least one byte, so `s.length` iterations reach the end of `s`. -/
def utf16leEncode (s : List Nat) : List Nat := utf16leLoop s.length s

/-! ## The directory

The types of `github.com/go-ldap/ldap/v3` that `service/ldap.go` touches, and the
behaviour of the directory server as the connector observes it. -/

/-- `ldap.EntryAttribute`: an attribute name with its values. -/
structure EntryAttribute where
  Name : String
  Values : List String
deriving DecidableEq, Repr

/-- `ldap.Entry`. -/
structure Entry where
  DN : String
  Attributes : List EntryAttribute
deriving DecidableEq, Repr

/-- `ldap.SearchResult`, of which the connector reads `Entries` only. -/
structure SearchResult where
  Entries : List Entry
deriving DecidableEq, Repr

/-- `Entry.GetAttributeValues`: the values of the first attribute with that name. -/
def Entry.GetAttributeValues (e : Entry) (attrName : String) : List String :=
  match e.Attributes.find? (fun attr => attr.Name == attrName) with
  | some attr => attr.Values
  | none => []

/-- `Entry.GetAttributeValue`: the first value of the attribute, or the empty string. -/
def Entry.GetAttributeValue (e : Entry) (attrName : String) : String :=
  match e.GetAttributeValues attrName with
  | [] => ""
  | v :: _ => v

/-- `ldap.Change`: one modification of a modify request. The values are Go strings,
kept as byte lists. -/
structure Change where
  Operation : Nat
  AttrType : String
  AttrVals : List (List Nat)
deriving DecidableEq, Repr

/-- `ldap.ModifyRequest`. -/
structure ModifyRequest where
  DN : String
  Changes : List Change
deriving DecidableEq, Repr

/-- `ldap.ReplaceAttribute`. -/
def ReplaceAttribute : Nat := 2

/-- `ldap.NewModifyRequest(dn, controls)`. -/
def NewModifyRequest (dn : String) : ModifyRequest := { DN := dn, Changes := [] }

/-- `ModifyRequest.Replace`: appends a replace change. -/
def ModifyRequest.Replace (req : ModifyRequest) (attrType : String)
    (attrVals : List (List Nat)) : ModifyRequest :=
  { req with Changes := req.Changes ++
      [{ Operation := ReplaceAttribute, AttrType := attrType, AttrVals := attrVals }] }

/-- The section `config.Conf.LDAP` of the configuration, as `service/ldap.go` reads
it. -/
structure LDAPSettings where
  Host : String
  BindUserDN : String
  BindUserPassword : String
  SearchDN : String
  UserAttribute : String
deriving DecidableEq, Repr

/-- `LDAPConfig`. -/
structure LDAPConfig where
  Addr : String
  BindUserDN : String
  BindUserPassword : String
  SearchDN : String
deriving DecidableEq, Repr

/-- `LDAPServer`; `Conn` is the identifier of the session `DialURL` opened. -/
structure LDAPServer where
  Conn : Nat
  Config : LDAPConfig
deriving DecidableEq, Repr

/-- `UserList`. -/
structure UserList where
  Name : String
  Username : String
  Password : String
  IsActive : Bool
  PhoneNumber : String
  Email : String
  UserFrom : String
deriving DecidableEq, Repr

/-- What the collaborators of the connector answer: the directory server to a dial,
to the service bind, to a search (by base DN and filter), to a user bind and to a
modify request, and `dao.User.SyncUsers` to the list it is given. A `some msg` or
`Except.error msg` is an error reported by the collaborator. The directory does not
change during one operation: the same request gets the same answer. -/
structure Directory where
  dial : String → Option String
  simpleBind : String → String → Option String
  search : String → String → Except String (List Entry)
  bind : String → List Nat → Option String
  modify : ModifyRequest → Option String
  syncUsers : List AuthUser → Option String

/-- One call of the connector to a collaborator. -/
inductive DirCall where
  | DialURL (addr : String)
  | SimpleBind (conn : Nat) (username password : String)
  | Search (conn : Nat) (baseDN filter : String)
  | Bind (conn : Nat) (dn : String) (password : List Nat)
  | Modify (conn : Nat) (req : ModifyRequest)
  | SyncUsers (users : List AuthUser)
deriving DecidableEq, Repr

/-- The state threaded through a directory operation: the sessions that are open
(a successful `DialURL` adds one; only `Conn.Close` would remove one), the identifier
the next session gets, and the log of calls, oldest first. -/
structure DirWorld where
  sessions : List Nat
  next : Nat
  log : List DirCall
deriving DecidableEq, Repr

/-- Append a call to the log. -/
def DirWorld.record (w : DirWorld) (c : DirCall) : DirWorld :=
  { w with log := w.log ++ [c] }

/-- `strings.Split` on a one-character separator, on the characters of the string:
the pieces between the separators, one more than there are separators. -/
def splitChars (sep : Char) : List Char → List (List Char)
  | [] => [[]]
  | c :: cs =>
    if c = sep then [] :: splitChars sep cs
    else
      match splitChars sep cs with
      | [] => [[c]]
      | piece :: pieces => (c :: piece) :: pieces

/-- `strings.Split(s, sep)` for a one-character separator. -/
def stringsSplit (s : String) (sep : Char) : List String :=
  (splitChars sep s.toList).map String.mk

/-! ## `service/ldap.go` -/

/-- `ad.Connect`. When the service bind fails, the session `DialURL` opened is not
closed. -/
def Connect (cfg : LDAPSettings) (dir : Directory) (w : DirWorld) :
    Except Err LDAPServer × DirWorld :=
  let conf : LDAPConfig :=
    { Addr := cfg.Host, BindUserDN := cfg.BindUserDN,
      BindUserPassword := cfg.BindUserPassword, SearchDN := cfg.SearchDN }
  let w := w.record (DirCall.DialURL conf.Addr)
  match dir.dial conf.Addr with
  | some msg => (Except.error (Err.ext msg), w)
  | none =>
    let conn := w.next
    let w := { w with sessions := w.sessions ++ [conn], next := w.next + 1 }
    let w := w.record (DirCall.SimpleBind conn conf.BindUserDN conf.BindUserPassword)
    match dir.simpleBind conf.BindUserDN conf.BindUserPassword with
    | some msg => (Except.error (Err.ext msg), w)
    | none => (Except.ok { Conn := conn, Config := conf }, w)

/-- The search filter of `LDAPUserSearch`:
`fmt.Sprintf("(&(objectClass=person)(%s=%s))", UserAttribute, username)`. -/
def userFilter (cfg : LDAPSettings) (username : String) : String :=
  "(&(objectClass=person)(" ++ cfg.UserAttribute ++ "=" ++ username ++ "))"

/-- The loop `for _, dn := range searchDN` of `LDAPUserSearch`, with the return that
follows it. -/
def searchLoop (cfg : LDAPSettings) (dir : Directory) (l : LDAPServer) (username : String) :
    List String → DirWorld → Except Err SearchResult × DirWorld
  | [], w => (Except.error Err.userNotExist, w)
  | dn :: rest, w =>
    let w := w.record (DirCall.Search l.Conn dn (userFilter cfg username))
    match dir.search dn (userFilter cfg username) with
    | Except.error msg => (Except.error (Err.ext msg), w)
    | Except.ok entries =>
      if entries.length = 0 then searchLoop cfg dir l username rest w
      else (Except.ok { Entries := entries }, w)

/-- `ad.LDAPUserSearch`. -/
def LDAPUserSearch (cfg : LDAPSettings) (dir : Directory) (username : String) (w : DirWorld) :
    Except Err SearchResult × DirWorld :=
  match Connect cfg dir w with
  | (Except.error err, w) => (Except.error err, w)
  | (Except.ok l, w) =>
    searchLoop cfg dir l username (stringsSplit cfg.SearchDN '&') w

/-- `ad.LDAPUserAuthentication`. `Entries[0]` of an empty result would be a run-time
panic. -/
def LDAPUserAuthentication (cfg : LDAPSettings) (dir : Directory) (username : String)
    (password : List Nat) (w : DirWorld) : Except Err SearchResult × DirWorld :=
  match Connect cfg dir w with
  | (Except.error err, w) => (Except.error err, w)
  | (Except.ok l, w) =>
    match LDAPUserSearch cfg dir username w with
    | (Except.error err, w) => (Except.error err, w)
    | (Except.ok searchResult, w) =>
      match searchResult.Entries with
      | [] => (Except.error Err.indexOutOfRange, w)
      | entry :: _ =>
        let userDN := entry.DN
        let w := w.record (DirCall.Bind l.Conn userDN password)
        match dir.bind userDN password with
        | some _ => (Except.error Err.badCredentials, w)
        | none => (Except.ok searchResult, w)

/-- The password branch of `LDAPUserResetPassword`: the change added to the modify
request, chosen by the configured user attribute. -/
def passwordChange (cfg : LDAPSettings) (req : ModifyRequest) (password : List Nat) :
    ModifyRequest :=
  if cfg.UserAttribute = "uid" then
    let digest := sha512Sum password
    let encoded := base64StdEncode digest
    req.Replace "userPassword" [asciiBytes "\x7bSHA512\x7d" ++ encoded]
  else
    let pwdEncoded := utf16leEncode (asciiBytes "\"" ++ password ++ asciiBytes "\"")
    req.Replace "unicodePwd" [pwdEncoded]

/-- `ad.LDAPUserResetPassword`. -/
def LDAPUserResetPassword (cfg : LDAPSettings) (dir : Directory) (username : String)
    (password : List Nat) (w : DirWorld) : Except Err Unit × DirWorld :=
  match Connect cfg dir w with
  | (Except.error err, w) => (Except.error err, w)
  | (Except.ok l, w) =>
    match LDAPUserSearch cfg dir username w with
    | (Except.error err, w) => (Except.error err, w)
    | (Except.ok searchResult, w) =>
      match searchResult.Entries with
      | [] => (Except.error Err.indexOutOfRange, w)
      | entry :: _ =>
        let userDN := entry.DN
        let req := passwordChange cfg (NewModifyRequest userDN) password
        let w := w.record (DirCall.Modify l.Conn req)
        match dir.modify req with
        | some msg => (Except.error (Err.ext msg), w)
        | none => (Except.ok (), w)

/-- The body of the loop over `searchResult.Entries` in `LDAPUserSync`: the
`UserList` value built from one directory entry. -/
def entryUserInfo (cfg : LDAPSettings) (value : Entry) : UserList :=
  let isActive :=
    if value.GetAttributeValue "userAccountControl" = "514"
        ∨ value.GetAttributeValue "userAccountControl" = "66050" then false
    else true
  { Name := value.GetAttributeValue "cn",
    Username := value.GetAttributeValue cfg.UserAttribute,
    Password := "",
    IsActive := isActive,
    PhoneNumber := value.GetAttributeValue "telephoneNumber",
    Email := value.GetAttributeValue "mail",
    UserFrom := "LDAP" }

/-- The loop over `searchResult.Entries` in `LDAPUserSync`: one `UserList` value is
appended per entry. -/
def appendEntries (cfg : LDAPSettings) : List Entry → List UserList → List UserList
  | [], userList => userList
  | value :: rest, userList => appendEntries cfg rest (userList ++ [entryUserInfo cfg value])

/-- The search filter of `LDAPUserSync`. -/
def personFilter : String := "(objectClass=person)"

/-- The loop `for _, dn := range searchDN` of `LDAPUserSync`. -/
def syncLoop (cfg : LDAPSettings) (dir : Directory) (l : LDAPServer) :
    List String → List UserList → DirWorld → Except Err (List UserList) × DirWorld
  | [], userList, w => (Except.ok userList, w)
  | dn :: rest, userList, w =>
    let w := w.record (DirCall.Search l.Conn dn personFilter)
    match dir.search dn personFilter with
    | Except.error msg => (Except.error (Err.ext msg), w)
    | Except.ok entries => syncLoop cfg dir l rest (appendEntries cfg entries userList) w

/-- The loop `for _, user := range userList` of `LDAPUserSync`: the `model.AuthUser`
built from one `UserList` value. -/
def userListAuthUser (user : UserList) : AuthUser :=
  { ID := 0,
    Username := user.Username,
    Name := user.Name,
    Email := user.Email,
    Password := user.Password,
    IsActive := user.IsActive,
    PhoneNumber := user.PhoneNumber,
    UserFrom := user.UserFrom }

/-- `ad.LDAPUserSync`. -/
def LDAPUserSync (cfg : LDAPSettings) (dir : Directory) (w : DirWorld) :
    Except Err Unit × DirWorld :=
  match Connect cfg dir w with
  | (Except.error err, w) => (Except.error err, w)
  | (Except.ok l, w) =>
    match syncLoop cfg dir l (stringsSplit cfg.SearchDN '&') [] w with
    | (Except.error err, w) => (Except.error err, w)
    | (Except.ok userList, w) =>
      let createOrUpdateUserList := userList.map userListAuthUser
      let w := w.record (DirCall.SyncUsers createOrUpdateUserList)
      match dir.syncUsers createOrUpdateUserList with
      | some msg => (Except.error (Err.ext msg), w)
      | none => (Except.ok (), w)

/-! ## Sample data -/

/-- No collaborator fails. -/
def noFaults : Faults := fun _ => none

/-- Exactly the calls of kind `op` fail, with error `e`. -/
def failAt (op : Op) (e : Err) : Faults := fun o => if o = op then some e else none

def alice : AuthUser :=
  { ID := 1, Username := "alice", Name := "Alice", Email := "", Password := "",
    IsActive := true, PhoneNumber := "", UserFrom := "LOCAL" }

def bob : AuthUser :=
  { ID := 2, Username := "bob", Name := "Bob", Email := "", Password := "",
    IsActive := true, PhoneNumber := "", UserFrom := "LOCAL" }

def opsGroup : AuthGroup := { ID := 1, Name := "ops", IsRoleGroup := true, Users := [bob] }

/-- The group "ops" as `First` loads it: the row without its members. -/
def opsRow : AuthGroup := { opsGroup with Users := [] }

def staffGroup : AuthGroup := { ID := 2, Name := "staff", IsRoleGroup := false, Users := [] }

def opsRole : PolicyRole := { name := "ops", members := ["bob"], menus := ["m1"], paths := ["/a"] }

def sampleStore : Store := { groups := [opsGroup, staffGroup], users := [alice, bob], roles := [opsRole] }

def sampleWorld : World := { db := sampleStore, tx := none, enforcer := [opsRole], log := [] }

def sampleSettings : LDAPSettings :=
  { Host := "ldaps://dc:636", BindUserDN := "cn=svc", BindUserPassword := "secret",
    SearchDN := "ou=a&ou=b", UserAttribute := "uid" }

def carolEntry : Entry :=
  { DN := "uid=carol,ou=b",
    Attributes := [{ Name := "cn", Values := ["Carol"] }, { Name := "uid", Values := ["carol"] },
      { Name := "userAccountControl", Values := ["514"] }] }

def daveEntry : Entry :=
  { DN := "uid=dave,ou=b",
    Attributes := [{ Name := "cn", Values := ["Dave"] }, { Name := "uid", Values := ["dave"] },
      { Name := "userAccountControl", Values := ["512"] }] }

/-- A directory with two search roots: "ou=a" holds nobody, "ou=b" holds carol and
dave; every bind, modify and sync succeeds. -/
def sampleDirectory : Directory :=
  { dial := fun _ => none,
    simpleBind := fun _ _ => none,
    search := fun dn filter =>
      if dn = "ou=b" then
        if filter = personFilter then Except.ok [carolEntry, daveEntry]
        else if filter = userFilter sampleSettings "carol" then Except.ok [carolEntry]
        else Except.ok []
      else Except.ok [],
    bind := fun _ _ => none,
    modify := fun _ => none,
    syncUsers := fun _ => none }

def emptyDirWorld : DirWorld := { sessions := [], next := 0, log := [] }

/-! ## Reading the call log -/

/-- The calls made between directory world `w` and a later world `w'`. -/
def dirCallsOf (w w' : DirWorld) : List DirCall := w'.log.drop w.log.length

/-- The base DNs of the searches in a list of calls, in call order. -/
def searchedRoots : List DirCall → List String
  | [] => []
  | DirCall.Search _ baseDN _ :: cs => baseDN :: searchedRoots cs
  | _ :: cs => searchedRoots cs

/-- The `LDAPServer` a successful `Connect` returns from world `w`. -/
def connServer (cfg : LDAPSettings) (w : DirWorld) : LDAPServer :=
  { Conn := w.next,
    Config := { Addr := cfg.Host, BindUserDN := cfg.BindUserDN,
                BindUserPassword := cfg.BindUserPassword, SearchDN := cfg.SearchDN } }

/-- The world a successful `Connect` leaves from world `w`: one more session, and the
dial and the service bind in the log. -/
def connWorld (cfg : LDAPSettings) (w : DirWorld) : DirWorld :=
  { sessions := w.sessions ++ [w.next], next := w.next + 1,
    log := w.log ++ [DirCall.DialURL cfg.Host,
      DirCall.SimpleBind w.next cfg.BindUserDN cfg.BindUserPassword] }

/-- The entries `LDAPUserSync` reads: those of every root, in root order. -/
def personEntries (dir : Directory) (roots : List String) : List Entry :=
  roots.flatMap (fun dn =>
    match dir.search dn personFilter with
    | Except.ok entries => entries
    | Except.error _ => [])


/-- The calls made between world `w` and a later world `w'`. -/
def callsOf (w w' : World) : List Call := w'.log.drop w.log.length

theorem callsOf_append (w w' : World) (cs : List Call) (h : w'.log = w.log ++ cs) :
    callsOf w w' = cs := by
  simp [callsOf, h]

/-! ## `UpdateGroupUser` with an empty id list -/

/-- C2: for an existing group (the lookup by id succeeds) and an empty user id list,
`UpdateGroupUser` returns the "at least one user" error; the only collaborator calls
it makes are `Begin` and the lookup, so the relational `UpdateGroupUser`, the policy
store's `UpdateRoleUser`, `Commit` and `LoadPolicy` are not called, and the committed
relational state (membership and policy roles) and the enforcer's policy are what they
were before the call. -/
theorem UpdateGroupUser_empty_rejected (env : Faults) (id : Nat) (w : World) (group : AuthGroup)
    (hfirst : env Op.First = none) (hgroup : firstGroup w.db id = Except.ok group) :
    (UpdateGroupUser env { ID := id, Users := [] } w).1 = Except.error Err.emptyUsers ∧
    callsOf w (UpdateGroupUser env { ID := id, Users := [] } w).2
      = [Call.Begin, Call.First true id] ∧
    (∀ g us, Call.GroupUpdateGroupUser g us
      ∉ callsOf w (UpdateGroupUser env { ID := id, Users := [] } w).2) ∧
    (∀ n us, Call.UpdateRoleUser n us
      ∉ callsOf w (UpdateGroupUser env { ID := id, Users := [] } w).2) ∧
    Call.Commit ∉ callsOf w (UpdateGroupUser env { ID := id, Users := [] } w).2 ∧
    Call.LoadPolicy ∉ callsOf w (UpdateGroupUser env { ID := id, Users := [] } w).2 ∧
    (UpdateGroupUser env { ID := id, Users := [] } w).2.db = w.db ∧
    (UpdateGroupUser env { ID := id, Users := [] } w).2.enforcer = w.enforcer := by
  have hlog : (UpdateGroupUser env { ID := id, Users := [] } w).2.log
      = w.log ++ [Call.Begin, Call.First true id] := by
    simp [UpdateGroupUser, txFirst, Begin, World.record, World.view, hfirst, hgroup]
  have hcalls := callsOf_append w _ _ hlog
  refine ⟨?_, hcalls, ?_, ?_, ?_, ?_, ?_, ?_⟩
  · simp [UpdateGroupUser, txFirst, Begin, World.record, World.view, hfirst, hgroup]
  · intro g us; rw [hcalls]; simp
  · intro n us; rw [hcalls]; simp
  · rw [hcalls]; simp
  · rw [hcalls]; simp
  · simp [UpdateGroupUser, txFirst, Begin, World.record, World.view, hfirst, hgroup]
  · simp [UpdateGroupUser, txFirst, Begin, World.record, World.view, hfirst, hgroup]

theorem UpdateGroupUser_empty_rejected_witness :
    (UpdateGroupUser noFaults { ID := 1, Users := [] } sampleWorld).1
      = Except.error Err.emptyUsers ∧
    (UpdateGroupUser noFaults { ID := 1, Users := [] } sampleWorld).2.db = sampleStore :=
  have h := UpdateGroupUser_empty_rejected noFaults 1 sampleWorld opsRow rfl rfl
  ⟨h.1, h.2.2.2.2.2.2.1⟩

/-! ## `DeleteGroup` -/

/-- C5: `DeleteGroup` commits only after the policy-store role deletion succeeded: if
`Commit` appears among its calls, the group was found, `DeleteRole` reported no error,
and the calls start with the lookup, the relational delete, `DeleteRole`, `Commit` in
that order. If the lookup fails (a collaborator error, or no row with that id), or
the relational delete fails, or `DeleteRole` fails, with error `e`, then `DeleteGroup`
returns `e`, calls `Rollback`, calls neither `Commit` nor `LoadPolicy`, and the
committed relational state is the one before the call. -/
theorem DeleteGroup_commit_after_role_deleted (env : Faults) (id : Nat) (w : World) :
    (Call.Commit ∈ callsOf w (DeleteGroup env id w).2 →
      env Op.DeleteRole = none ∧
      ∃ group rest, firstGroup w.db id = Except.ok group ∧
        callsOf w (DeleteGroup env id w).2
          = [Call.Begin, Call.First true id, Call.GroupDeleteGroup group,
             Call.DeleteRole group.Name, Call.Commit] ++ rest) ∧
    (∀ e : Err,
      (env Op.First = some e ∨
       (env Op.First = none ∧ firstGroup w.db id = Except.error e) ∨
       (env Op.First = none ∧ (∃ group, firstGroup w.db id = Except.ok group) ∧
          env Op.GroupDeleteGroup = some e) ∨
       (env Op.First = none ∧ (∃ group, firstGroup w.db id = Except.ok group) ∧
          env Op.GroupDeleteGroup = none ∧ env Op.DeleteRole = some e)) →
      (DeleteGroup env id w).1 = Except.error e ∧
      Call.Rollback ∈ callsOf w (DeleteGroup env id w).2 ∧
      Call.Commit ∉ callsOf w (DeleteGroup env id w).2 ∧
      Call.LoadPolicy ∉ callsOf w (DeleteGroup env id w).2 ∧
      (DeleteGroup env id w).2.db = w.db) := by
  constructor
  · intro hc
    cases h1 : env Op.First with
    | some e1 =>
      simp [DeleteGroup, txFirst, Begin, Rollback, World.record, callsOf, h1] at hc
    | none =>
      cases h2 : firstGroup w.db id with
      | error e2 =>
        simp [DeleteGroup, txFirst, Begin, Rollback, World.record, World.view, callsOf,
          h1, h2] at hc
      | ok group =>
        cases h3 : env Op.GroupDeleteGroup with
        | some e3 =>
          simp [DeleteGroup, txFirst, daoGroupDeleteGroup, Begin, Rollback, World.record,
            World.view, callsOf, h1, h2, h3] at hc
        | none =>
          cases h4 : env Op.DeleteRole with
          | some e4 =>
            simp [DeleteGroup, txFirst, daoGroupDeleteGroup, daoCasBinDeleteRole, Begin,
              Rollback, World.record, World.view, World.write, callsOf, h1, h2, h3, h4] at hc
          | none =>
            refine ⟨rfl, group, ?_, rfl, ?_⟩
            · exact (callsOf w (DeleteGroup env id w).2).drop 5
            · cases h5 : env Op.Commit with
              | some e5 =>
                simp [DeleteGroup, txFirst, daoGroupDeleteGroup, daoCasBinDeleteRole, Commit,
                  Begin, Rollback, World.record, World.view, World.write, callsOf,
                  h1, h2, h3, h4, h5]
              | none =>
                cases h6 : env Op.LoadPolicy <;>
                simp [DeleteGroup, txFirst, daoGroupDeleteGroup, daoCasBinDeleteRole, Commit,
                  LoadPolicy, Begin, Rollback, World.record, World.view, World.write, callsOf,
                  h1, h2, h3, h4, h5, h6]
  · intro e h
    rcases h with h1 | ⟨h1, h2⟩ | ⟨h1, ⟨group, h2⟩, h3⟩ | ⟨h1, ⟨group, h2⟩, h3, h4⟩
    · simp [DeleteGroup, txFirst, Begin, Rollback, World.record, callsOf, h1]
    · simp [DeleteGroup, txFirst, Begin, Rollback, World.record, World.view, callsOf, h1, h2]
    · simp [DeleteGroup, txFirst, daoGroupDeleteGroup, Begin, Rollback, World.record,
        World.view, callsOf, h1, h2, h3]
    · simp [DeleteGroup, txFirst, daoGroupDeleteGroup, daoCasBinDeleteRole, Begin,
        Rollback, World.record, World.view, World.write, callsOf, h1, h2, h3, h4]

theorem DeleteGroup_commit_after_role_deleted_witness :
    (DeleteGroup (failAt Op.DeleteRole (Err.ext "policy store down")) 1 sampleWorld).1
      = Except.error (Err.ext "policy store down") ∧
    Call.Rollback ∈ callsOf sampleWorld
      (DeleteGroup (failAt Op.DeleteRole (Err.ext "policy store down")) 1 sampleWorld).2 ∧
    (DeleteGroup (failAt Op.DeleteRole (Err.ext "policy store down")) 1 sampleWorld).2.db
      = sampleStore :=
  have h := (DeleteGroup_commit_after_role_deleted
    (failAt Op.DeleteRole (Err.ext "policy store down")) 1 sampleWorld).2
    (Err.ext "policy store down")
    (Or.inr (Or.inr (Or.inr ⟨rfl, ⟨opsRow, rfl⟩, rfl, rfl⟩)))
  ⟨h.1, h.2.1, h.2.2.2.2⟩

/-! ## `UpdateGroupPermission` -/

/-- C9: when the group found by `UpdateGroupPermission` is not a role group, it returns
the "plain groups take no permissions" error, its only collaborator call is the
lookup (so neither `UpdateRolePermission` nor `LoadPolicy` is called), and the
policy rows and the enforcer's policy are unchanged. When the group is a role group,
the call after the lookup is `UpdateRolePermission` with the group's name and
exactly the supplied menu and path permission lists, followed by `LoadPolicy` (the
reload is issued once `UpdateRolePermission` has reported no error), and nothing
else. -/
theorem UpdateGroupPermission_role_gate (env : Faults) (data : GroupUpdatePermission)
    (w : World) (group : AuthGroup)
    (hfirst : env Op.First = none) (hgroup : firstGroup w.db data.ID = Except.ok group) :
    (group.IsRoleGroup = false →
      (UpdateGroupPermission env data w).1 = Except.error Err.notRoleGroup ∧
      callsOf w (UpdateGroupPermission env data w).2 = [Call.First false data.ID] ∧
      (∀ n ms ps, Call.UpdateRolePermission n ms ps
        ∉ callsOf w (UpdateGroupPermission env data w).2) ∧
      Call.LoadPolicy ∉ callsOf w (UpdateGroupPermission env data w).2 ∧
      (UpdateGroupPermission env data w).2.db = w.db ∧
      (UpdateGroupPermission env data w).2.enforcer = w.enforcer) ∧
    (group.IsRoleGroup = true →
      callsOf w (UpdateGroupPermission env data w).2
        = [Call.First false data.ID,
           Call.UpdateRolePermission group.Name data.MenuPermissions data.PathPermissions]
          ++ (if env Op.UpdateRolePermission = none then [Call.LoadPolicy] else [])) := by
  constructor
  · intro hrole
    simp [UpdateGroupPermission, clientFirst, World.record, callsOf, hfirst, hgroup, hrole]
  · intro hrole
    cases h1 : env Op.UpdateRolePermission with
    | some e1 =>
      simp [UpdateGroupPermission, clientFirst, daoCasBinUpdateRolePermission, World.record,
        callsOf, hfirst, hgroup, hrole, h1]
    | none =>
      cases h2 : env Op.LoadPolicy <;>
      simp [UpdateGroupPermission, clientFirst, daoCasBinUpdateRolePermission, LoadPolicy,
        World.record, callsOf, hfirst, hgroup, hrole, h1, h2]

theorem UpdateGroupPermission_role_gate_witness :
    (UpdateGroupPermission noFaults
        { ID := 2, MenuPermissions := ["m1"], PathPermissions := ["/a"] } sampleWorld).1
      = Except.error Err.notRoleGroup ∧
    callsOf sampleWorld (UpdateGroupPermission noFaults
        { ID := 1, MenuPermissions := ["m2"], PathPermissions := ["/b"] } sampleWorld).2
      = [Call.First false 1, Call.UpdateRolePermission "ops" ["m2"] ["/b"], Call.LoadPolicy] :=
  ⟨((UpdateGroupPermission_role_gate noFaults
      { ID := 2, MenuPermissions := ["m1"], PathPermissions := ["/a"] } sampleWorld staffGroup
      rfl rfl).1 rfl).1,
   (UpdateGroupPermission_role_gate noFaults
      { ID := 1, MenuPermissions := ["m2"], PathPermissions := ["/b"] } sampleWorld opsRow
      rfl rfl).2 rfl⟩

/-! ## `UpdateGroupUser`: resolving the user ids -/

/-- C4, as stated, fails: id 7 matches no `auth_user` row, yet
`UpdateGroupUser` on ids `[1, 7]` succeeds with the one row that was found, writes the
policy store and commits, without any rollback. -/
theorem UpdateGroupUser_missing_id_proceeds :
    (∀ u ∈ sampleStore.users, u.ID ≠ 7) ∧
    (UpdateGroupUser noFaults { ID := 1, Users := [1, 7] } sampleWorld).1
      = Except.ok { opsGroup with Users := [alice] } ∧
    callsOf sampleWorld (UpdateGroupUser noFaults { ID := 1, Users := [1, 7] } sampleWorld).2
      = [Call.Begin, Call.First true 1, Call.Find [1, 7],
         Call.GroupUpdateGroupUser opsRow [alice], Call.SelectUsernames [1, 7],
         Call.UpdateRoleUser "ops" ["alice"], Call.Commit, Call.LoadPolicy] := by
  refine ⟨by decide, rfl, rfl⟩

/-- C4 (amended): for a found group and a non-empty id list, `UpdateGroupUser` fails
when the user lookup itself reports an error `e`: it returns `e`, calls `Rollback`,
calls neither `Commit` nor the policy store's `UpdateRoleUser`, and leaves the
committed state as it was. An id that matches no user row, supplied next to an id
that does match one, is not an error: when the lookup reports none and at least one
supplied id has a row, the relational `UpdateGroupUser` is called next, with the
non-empty list of the rows of the ids that exist. (Nothing is said of a list in which
no id has a row.) -/
theorem UpdateGroupUser_lookup_failure (env : Faults) (data : GroupUpdateUser) (w : World)
    (group : AuthGroup) (hfirst : env Op.First = none)
    (hgroup : firstGroup w.db data.ID = Except.ok group) (hne : data.Users ≠ []) :
    (∀ e, env Op.Find = some e →
      (UpdateGroupUser env data w).1 = Except.error e ∧
      Call.Rollback ∈ callsOf w (UpdateGroupUser env data w).2 ∧
      Call.Commit ∉ callsOf w (UpdateGroupUser env data w).2 ∧
      (∀ n us, Call.UpdateRoleUser n us ∉ callsOf w (UpdateGroupUser env data w).2) ∧
      (UpdateGroupUser env data w).2.db = w.db) ∧
    (env Op.Find = none → (∃ u ∈ w.db.users, u.ID ∈ data.Users) →
      w.db.users.filter (fun u => decide (u.ID ∈ data.Users)) ≠ [] ∧
      (callsOf w (UpdateGroupUser env data w).2).take 4
        = [Call.Begin, Call.First true data.ID, Call.Find data.Users,
           Call.GroupUpdateGroupUser group
             (w.db.users.filter (fun u => decide (u.ID ∈ data.Users)))]) := by
  have hlen : ¬ data.Users.length = 0 := by
    intro h; exact hne (List.length_eq_zero.mp h)
  constructor
  · intro e he
    simp [UpdateGroupUser, txFirst, txFind, Begin, Rollback, World.record, World.view,
      callsOf, hfirst, hgroup, hlen, he]
  · intro he hmatch
    refine ⟨?_, ?_⟩
    · obtain ⟨u, hu, hid⟩ := hmatch
      intro hnil
      have hmem : u ∈ w.db.users.filter (fun u => decide (u.ID ∈ data.Users)) :=
        List.mem_filter.mpr ⟨hu, by simpa using hid⟩
      rw [hnil] at hmem
      exact absurd hmem (List.not_mem_nil u)
    cases h1 : env Op.GroupUpdateGroupUser with
    | some e1 =>
      simp [UpdateGroupUser, txFirst, txFind, daoGroupUpdateGroupUser, Begin, Rollback,
        World.record, World.view, callsOf, hfirst, hgroup, hlen, he, h1]
    | none =>
      cases h2 : group.IsRoleGroup <;> cases h3 : env Op.SelectUsernames <;>
        cases h4 : env Op.UpdateRoleUser <;> cases h5 : env Op.Commit <;>
        cases h6 : env Op.LoadPolicy <;>
      simp [UpdateGroupUser, txFirst, txFind, daoGroupUpdateGroupUser, syncRoleUsers,
        GetUserNamesFromIDs, daoCasBinUpdateRoleUser, Commit, LoadPolicy, Begin, Rollback,
        World.record, World.view, World.write, callsOf, hfirst, hgroup, hlen, he, h1, h2,
        h3, h4, h5, h6]

theorem UpdateGroupUser_lookup_failure_witness :
    (UpdateGroupUser (failAt Op.Find (Err.ext "query failed")) { ID := 1, Users := [1, 7] }
        sampleWorld).1 = Except.error (Err.ext "query failed") ∧
    (∃ u ∈ sampleWorld.db.users, u.ID ∈ [1, 7]) ∧
    (callsOf sampleWorld (UpdateGroupUser noFaults { ID := 1, Users := [1, 7] }
        sampleWorld).2).take 4
      = [Call.Begin, Call.First true 1, Call.Find [1, 7],
         Call.GroupUpdateGroupUser opsRow [alice]] :=
  ⟨((UpdateGroupUser_lookup_failure (failAt Op.Find (Err.ext "query failed"))
      { ID := 1, Users := [1, 7] } sampleWorld opsRow rfl rfl (by decide)).1
      (Err.ext "query failed") rfl).1,
   ⟨alice, List.mem_cons_self _ _, List.mem_cons_self _ _⟩,
   ((UpdateGroupUser_lookup_failure noFaults
      { ID := 1, Users := [1, 7] } sampleWorld opsRow rfl rfl (by decide)).2 rfl
      ⟨alice, List.mem_cons_self _ _, List.mem_cons_self _ _⟩).2⟩

/-! ## `UpdateGroupUser`: the role's member list -/

/-- When the username query of `GetUserNamesFromIDs` reports no error, a successful
`UpdateGroupUser` on a role group has passed the usernames of the supplied ids to
`UpdateRoleUser` under the group's name, and has committed. -/
theorem UpdateGroupUser_members_when_query_ok (env : Faults) (data : GroupUpdateUser)
    (w : World) (group result : AuthGroup) (hrole : group.IsRoleGroup = true)
    (hgroup : firstGroup w.db data.ID = Except.ok group)
    (hquery : env Op.SelectUsernames = none)
    (hok : (UpdateGroupUser env data w).1 = Except.ok result) :
    Call.UpdateRoleUser group.Name (usernamesOf w.db data.Users)
      ∈ callsOf w (UpdateGroupUser env data w).2 ∧
    Call.Commit ∈ callsOf w (UpdateGroupUser env data w).2 := by
  revert hok
  cases h0 : env Op.First with
  | some e0 => simp [UpdateGroupUser, txFirst, Begin, Rollback, World.record, h0]
  | none =>
    by_cases hlen : data.Users.length = 0
    · simp [UpdateGroupUser, txFirst, Begin, World.record, World.view, h0, hgroup, hlen]
    · cases h1 : env Op.Find with
      | some e1 =>
        simp [UpdateGroupUser, txFirst, txFind, Begin, Rollback, World.record, World.view,
          h0, hgroup, hlen, h1]
      | none =>
        cases h2 : env Op.GroupUpdateGroupUser <;> cases h4 : env Op.UpdateRoleUser <;>
          cases h5 : env Op.Commit <;> cases h6 : env Op.LoadPolicy <;>
        simp [UpdateGroupUser, txFirst, txFind, daoGroupUpdateGroupUser, syncRoleUsers,
          GetUserNamesFromIDs, daoCasBinUpdateRoleUser, Commit, LoadPolicy, Begin, Rollback,
          World.record, World.view, World.write, callsOf, usernamesOf, h0, hgroup, hlen, h1,
          h2, hrole, hquery, h4, h5, h6]

/-- C1 fails at this input: the username query of `GetUserNamesFromIDs` reports an
error, which `UpdateGroupUser` discards. For the role group "ops" and the id list
`[1]`, whose usernames are `["alice"]`, `UpdateGroupUser` returns success and
commits, but the member list it passed to `UpdateRoleUser` is empty, and the
committed role "ops" ends with no member. -/
theorem UpdateGroupUser_username_error_discarded :
    opsGroup.IsRoleGroup = true ∧
    usernamesOf sampleStore [1] = ["alice"] ∧
    (UpdateGroupUser (failAt Op.SelectUsernames (Err.ext "query failed"))
        { ID := 1, Users := [1] } sampleWorld).1
      = Except.ok { opsGroup with Users := [alice] } ∧
    callsOf sampleWorld (UpdateGroupUser (failAt Op.SelectUsernames (Err.ext "query failed"))
        { ID := 1, Users := [1] } sampleWorld).2
      = [Call.Begin, Call.First true 1, Call.Find [1],
         Call.GroupUpdateGroupUser opsRow [alice], Call.SelectUsernames [1],
         Call.UpdateRoleUser "ops" [], Call.Commit, Call.LoadPolicy] ∧
    (UpdateGroupUser (failAt Op.SelectUsernames (Err.ext "query failed"))
        { ID := 1, Users := [1] } sampleWorld).2.db.roles
      = [{ opsRole with members := [] }] :=
  ⟨rfl, rfl, rfl, rfl, rfl⟩

/-! ## `UpdateGroup` -/

/-- On the two failures before the commit (the policy-store rename, the relational
update), `UpdateGroup` returns the error, never calls `Commit`, and the committed
state keeps the old names. -/
theorem UpdateGroup_failure_never_commits (env : Faults) (data : GroupUpdate) (w : World)
    (group : AuthGroup) (e : Err) (hfirst : env Op.First = none)
    (hgroup : firstGroup w.db data.ID = Except.ok group)
    (hfail : env Op.UpdateRoleName = some e ∨
      (env Op.UpdateRoleName = none ∧ env Op.GroupUpdateGroup = some e)) :
    (UpdateGroup env data w).1 = Except.error e ∧
    Call.Commit ∉ callsOf w (UpdateGroup env data w).2 ∧
    (UpdateGroup env data w).2.db = w.db := by
  rcases hfail with h1 | ⟨h1, h2⟩
  · simp [UpdateGroup, clientFirst, daoCasBinUpdateRoleName, Begin, World.record, callsOf,
      hfirst, hgroup, h1]
  · simp [UpdateGroup, clientFirst, daoCasBinUpdateRoleName, daoGroupUpdateGroup, Begin,
      World.record, World.write, callsOf, hfirst, hgroup, h1, h2]

/-- C3 fails at these inputs. When the policy-store rename of "ops" to "admins" fails,
`UpdateGroup` returns the error after three calls, none of which is `Rollback`, and the
transaction is still open. When the relational update fails after the rename
succeeded, `UpdateGroup` again returns without `Rollback`, and the open transaction
holds the renamed role next to the group row that still has the old name. -/
theorem UpdateGroup_failure_without_rollback :
    (UpdateGroup (failAt Op.UpdateRoleName (Err.ext "rename failed"))
        { ID := 1, Name := "admins" } sampleWorld).1 = Except.error (Err.ext "rename failed") ∧
    callsOf sampleWorld (UpdateGroup (failAt Op.UpdateRoleName (Err.ext "rename failed"))
        { ID := 1, Name := "admins" } sampleWorld).2
      = [Call.Begin, Call.First false 1, Call.UpdateRoleName "ops" "admins"] ∧
    (UpdateGroup (failAt Op.UpdateRoleName (Err.ext "rename failed"))
        { ID := 1, Name := "admins" } sampleWorld).2.tx = some sampleStore ∧
    (UpdateGroup (failAt Op.GroupUpdateGroup (Err.ext "update failed"))
        { ID := 1, Name := "admins" } sampleWorld).1 = Except.error (Err.ext "update failed") ∧
    callsOf sampleWorld (UpdateGroup (failAt Op.GroupUpdateGroup (Err.ext "update failed"))
        { ID := 1, Name := "admins" } sampleWorld).2
      = [Call.Begin, Call.First false 1, Call.UpdateRoleName "ops" "admins",
         Call.GroupUpdateGroup { opsRow with Name := "admins" }] ∧
    (UpdateGroup (failAt Op.GroupUpdateGroup (Err.ext "update failed"))
        { ID := 1, Name := "admins" } sampleWorld).2.tx
      = some { sampleStore with roles := [{ opsRole with name := "admins" }] } :=
  ⟨rfl, rfl, rfl, rfl, rfl, rfl⟩

/-! ## Directory connector: sessions and search order -/

theorem dirCallsOf_append (w w' : DirWorld) (cs : List DirCall) (h : w'.log = w.log ++ cs) :
    dirCallsOf w w' = cs := by
  simp [dirCallsOf, h]

theorem searchedRoots_append (xs ys : List DirCall) :
    searchedRoots (xs ++ ys) = searchedRoots xs ++ searchedRoots ys := by
  induction xs with
  | nil => rfl
  | cons c cs ih => cases c <;> simp [searchedRoots, ih]

theorem searchedRoots_map_search (conn : Nat) (filter : String) (roots : List String) :
    searchedRoots (roots.map (fun dn => DirCall.Search conn dn filter)) = roots := by
  induction roots with
  | nil => rfl
  | cons dn rest ih => simp [searchedRoots, ih]

theorem splitChars_ne_nil (sep : Char) (cs : List Char) : splitChars sep cs ≠ [] := by
  induction cs with
  | nil => simp [splitChars]
  | cons c cs ih =>
    by_cases h : c = sep
    · simp [splitChars, h]
    · cases hs : splitChars sep cs <;> simp [splitChars, h, hs]

theorem stringsSplit_ne_nil (s : String) (sep : Char) : stringsSplit s sep ≠ [] := by
  simp [stringsSplit, splitChars_ne_nil]

/-- The outcome of `Connect`: it fails after the dial alone when the dial fails; after
a successful dial a new session is open, whether the service bind succeeds or not. -/
theorem Connect_spec (cfg : LDAPSettings) (dir : Directory) (w : DirWorld) :
    (∀ msg, dir.dial cfg.Host = some msg →
      (Connect cfg dir w).1 = Except.error (Err.ext msg) ∧
      (Connect cfg dir w).2 = { w with log := w.log ++ [DirCall.DialURL cfg.Host] }) ∧
    (dir.dial cfg.Host = none →
      (Connect cfg dir w).2 =
        { sessions := w.sessions ++ [w.next], next := w.next + 1,
          log := w.log ++ [DirCall.DialURL cfg.Host,
            DirCall.SimpleBind w.next cfg.BindUserDN cfg.BindUserPassword] } ∧
      (∀ msg, dir.simpleBind cfg.BindUserDN cfg.BindUserPassword = some msg →
        (Connect cfg dir w).1 = Except.error (Err.ext msg)) ∧
      (dir.simpleBind cfg.BindUserDN cfg.BindUserPassword = none →
        ∃ l, (Connect cfg dir w).1 = Except.ok l ∧ l.Conn = w.next)) := by
  constructor
  · intro msg h
    simp [Connect, DirWorld.record, h]
  · intro h
    cases hb : dir.simpleBind cfg.BindUserDN cfg.BindUserPassword <;>
      simp [Connect, DirWorld.record, h, hb]

/-- The loop of `LDAPUserSearch`: it searches a leading segment `issued` of the roots,
in order, and touches nothing but the log. It ends with "user does not exist" exactly
when every root answers with zero entries, having searched all of them; it ends with
a result exactly at the first root that answers with entries, every root before it
having answered with zero entries. -/
theorem searchLoop_spec (cfg : LDAPSettings) (dir : Directory) (l : LDAPServer)
    (username : String) (roots : List String) (w : DirWorld) :
    ∃ issued : List String,
      issued <+: roots ∧
      (searchLoop cfg dir l username roots w).2 =
        { w with log := w.log ++
            issued.map (fun dn => DirCall.Search l.Conn dn (userFilter cfg username)) } ∧
      ((searchLoop cfg dir l username roots w).1 = Except.error Err.userNotExist ↔
        ∀ d ∈ roots, dir.search d (userFilter cfg username) = Except.ok []) ∧
      ((searchLoop cfg dir l username roots w).1 = Except.error Err.userNotExist →
        issued = roots) ∧
      (∀ res, (searchLoop cfg dir l username roots w).1 = Except.ok res →
        ∃ pre dn post, roots = pre ++ dn :: post ∧
          (∀ d ∈ pre, dir.search d (userFilter cfg username) = Except.ok []) ∧
          dir.search dn (userFilter cfg username) = Except.ok res.Entries ∧
          res.Entries ≠ [] ∧ issued = pre ++ [dn]) := by
  induction roots generalizing w with
  | nil =>
    refine ⟨[], List.prefix_refl _, ?_, ?_, ?_, ?_⟩ <;> simp [searchLoop]
  | cons dn rest ih =>
    cases h : dir.search dn (userFilter cfg username) with
    | error msg =>
      refine ⟨[dn], ?_, ?_, ?_, ?_, ?_⟩
      · exact ⟨rest, rfl⟩
      · simp [searchLoop, h, DirWorld.record]
      · simp [searchLoop, h]
      · simp [searchLoop, h]
      · simp [searchLoop, h]
    | ok entries =>
      cases entries with
      | nil =>
        obtain ⟨issued, hpre, hw, hiff, hall, hres⟩ :=
          ih (w.record (DirCall.Search l.Conn dn (userFilter cfg username)))
        have hloop : searchLoop cfg dir l username (dn :: rest) w
            = searchLoop cfg dir l username rest
                (w.record (DirCall.Search l.Conn dn (userFilter cfg username))) := by
          simp [searchLoop, h]
        refine ⟨dn :: issued, ?_, ?_, ?_, ?_, ?_⟩
        · obtain ⟨t, ht⟩ := hpre
          exact ⟨t, by simp [← ht]⟩
        · rw [hloop, hw]; simp [DirWorld.record]
        · rw [hloop, hiff]; simp [h]
        · intro hr; rw [hloop] at hr; rw [hall hr]
        · intro res hr
          rw [hloop] at hr
          obtain ⟨pre, d, post, h1, h2, h3, h4, h5⟩ := hres res hr
          refine ⟨dn :: pre, d, post, by simp [h1], ?_, h3, h4, by simp [h5]⟩
          intro x hx
          rcases List.mem_cons.mp hx with rfl | hx
          · exact h
          · exact h2 x hx
      | cons e es =>
        refine ⟨[dn], ?_, ?_, ?_, ?_, ?_⟩
        · exact ⟨rest, rfl⟩
        · simp [searchLoop, h, DirWorld.record]
        · simp [searchLoop, h]
        · simp [searchLoop, h]
        · intro res hr
          simp [searchLoop, h] at hr
          refine ⟨[], dn, rest, rfl, by simp, ?_, ?_, rfl⟩
          · rw [h, ← hr]
          · rw [← hr]; simp

/-- The loop of `LDAPUserSearch` stops at the first root that answers with entries. -/
theorem searchLoop_first_match (cfg : LDAPSettings) (dir : Directory) (l : LDAPServer)
    (username : String) (pre : List String) (dn : String) (post : List String)
    (entries : List Entry) (w : DirWorld)
    (hpre : ∀ d ∈ pre, dir.search d (userFilter cfg username) = Except.ok [])
    (hdn : dir.search dn (userFilter cfg username) = Except.ok entries)
    (hne : entries ≠ []) :
    searchLoop cfg dir l username (pre ++ dn :: post) w =
      (Except.ok { Entries := entries },
       { w with log := w.log ++
          List.map (fun d => DirCall.Search l.Conn d (userFilter cfg username)) (pre ++ [dn]) }) := by
  induction pre generalizing w with
  | nil =>
    cases entries with
    | nil => exact absurd rfl hne
    | cons e es => simp [searchLoop, hdn, DirWorld.record]
  | cons d ds ih =>
    have hd := hpre d (List.mem_cons_self _ _)
    have hds : ∀ x ∈ ds, dir.search x (userFilter cfg username) = Except.ok [] :=
      fun x hx => hpre x (List.mem_cons_of_mem _ hx)
    simp [searchLoop, hd, ih _ hds, DirWorld.record]

/-- `LDAPUserSearch` once `Connect` has succeeded: the search loop runs on the new
session. -/
theorem LDAPUserSearch_connected (cfg : LDAPSettings) (dir : Directory) (username : String)
    (w : DirWorld) (hdial : dir.dial cfg.Host = none)
    (hbind : dir.simpleBind cfg.BindUserDN cfg.BindUserPassword = none) :
    LDAPUserSearch cfg dir username w =
      searchLoop cfg dir
        (connServer cfg w)
        username (stringsSplit cfg.SearchDN '&')
        (connWorld cfg w) := by
  simp [LDAPUserSearch, Connect, DirWorld.record, connServer, connWorld, hdial, hbind]

/-- `LDAPUserSearch` when `Connect` fails: the error of the dial or of the service
bind is returned and no search is issued. -/
theorem LDAPUserSearch_not_connected (cfg : LDAPSettings) (dir : Directory)
    (username : String) (w : DirWorld)
    (h : dir.dial cfg.Host ≠ none ∨
      dir.simpleBind cfg.BindUserDN cfg.BindUserPassword ≠ none) :
    (∃ msg, (LDAPUserSearch cfg dir username w).1 = Except.error (Err.ext msg)) ∧
    searchedRoots (dirCallsOf w (LDAPUserSearch cfg dir username w).2) = [] := by
  cases hd : dir.dial cfg.Host with
  | some m =>
    simp [LDAPUserSearch, Connect, DirWorld.record, hd, dirCallsOf, searchedRoots]
  | none =>
    cases hb : dir.simpleBind cfg.BindUserDN cfg.BindUserPassword with
    | some m =>
      simp [LDAPUserSearch, Connect, DirWorld.record, hd, hb, dirCallsOf, searchedRoots]
    | none => simp [hd, hb] at h

/-- C6: `LDAPUserSearch` searches the roots of the configured `SearchDN` (split on
'&') in list order: the roots it searched are a leading segment of the list. It
returns the result of the first root whose search yields at least one entry, every
root before it having answered with zero entries, and searches no later root: the
roots searched are those up to and including that root. It returns the "user does
not exist" error if and only if every root of the list was searched and every root
answered, without error, with zero entries. -/
theorem LDAPUserSearch_first_match (cfg : LDAPSettings) (dir : Directory) (username : String)
    (w : DirWorld) :
    searchedRoots (dirCallsOf w (LDAPUserSearch cfg dir username w).2)
      <+: stringsSplit cfg.SearchDN '&' ∧
    (∀ pre dn post entries,
      dir.dial cfg.Host = none →
      dir.simpleBind cfg.BindUserDN cfg.BindUserPassword = none →
      stringsSplit cfg.SearchDN '&' = pre ++ dn :: post →
      (∀ d ∈ pre, dir.search d (userFilter cfg username) = Except.ok []) →
      dir.search dn (userFilter cfg username) = Except.ok entries →
      entries ≠ [] →
      (LDAPUserSearch cfg dir username w).1 = Except.ok { Entries := entries } ∧
      searchedRoots (dirCallsOf w (LDAPUserSearch cfg dir username w).2) = pre ++ [dn]) ∧
    (∀ res, (LDAPUserSearch cfg dir username w).1 = Except.ok res →
      ∃ pre dn post, stringsSplit cfg.SearchDN '&' = pre ++ dn :: post ∧
        (∀ d ∈ pre, dir.search d (userFilter cfg username) = Except.ok []) ∧
        dir.search dn (userFilter cfg username) = Except.ok res.Entries ∧
        res.Entries ≠ [] ∧
        searchedRoots (dirCallsOf w (LDAPUserSearch cfg dir username w).2) = pre ++ [dn]) ∧
    ((LDAPUserSearch cfg dir username w).1 = Except.error Err.userNotExist ↔
      searchedRoots (dirCallsOf w (LDAPUserSearch cfg dir username w).2)
        = stringsSplit cfg.SearchDN '&' ∧
      ∀ d ∈ stringsSplit cfg.SearchDN '&',
        dir.search d (userFilter cfg username) = Except.ok []) := by
  by_cases hc : dir.dial cfg.Host = none ∧
      dir.simpleBind cfg.BindUserDN cfg.BindUserPassword = none
  · obtain ⟨hdial, hbind⟩ := hc
    have hconn := LDAPUserSearch_connected cfg dir username w hdial hbind
    obtain ⟨issued, hpre, hw, hiff, hall, hres⟩ := searchLoop_spec cfg dir
      (connServer cfg w)
      username (stringsSplit cfg.SearchDN '&')
      (connWorld cfg w)
    rw [← hconn] at hw hiff hall hres
    have hroots : searchedRoots (dirCallsOf w (LDAPUserSearch cfg dir username w).2)
        = issued := by
      rw [hw]
      simp [dirCallsOf, connWorld, connServer, searchedRoots, searchedRoots_append,
        searchedRoots_map_search]
    refine ⟨by rw [hroots]; exact hpre, ?_, ?_, ?_⟩
    · intro pre dn post entries _ _ hsplit hempty hdn hne
      have hfm := searchLoop_first_match cfg dir
        (connServer cfg w)
        username pre dn post entries
        (connWorld cfg w)
        hempty hdn hne
      rw [← hsplit, ← hconn] at hfm
      constructor
      · rw [hfm]
      · rw [hfm]
        simp only [dirCallsOf, connWorld, List.append_assoc, List.drop_left]
        simp [searchedRoots, searchedRoots_append, searchedRoots_map_search]
    · intro res hr
      obtain ⟨pre, dn, post, h1, h2, h3, h4, h5⟩ := hres res hr
      exact ⟨pre, dn, post, h1, h2, h3, h4, by rw [hroots, h5]⟩
    · rw [hroots]
      constructor
      · intro hr
        exact ⟨hall hr, hiff.mp hr⟩
      · intro hr
        exact hiff.mpr hr.2
  · have hnc : dir.dial cfg.Host ≠ none ∨
        dir.simpleBind cfg.BindUserDN cfg.BindUserPassword ≠ none := by
      by_cases hd : dir.dial cfg.Host = none
      · exact Or.inr (fun hb => hc ⟨hd, hb⟩)
      · exact Or.inl hd
    obtain ⟨⟨msg, herr⟩, hnone⟩ := LDAPUserSearch_not_connected cfg dir username w hnc
    refine ⟨by rw [hnone]; exact List.nil_prefix, ?_, ?_, ?_⟩
    · intro pre dn post entries hdial hbind
      exact absurd ⟨hdial, hbind⟩ hc
    · intro res hr
      rw [herr] at hr
      cases hr
    · rw [herr, hnone]
      constructor
      · intro hr
        cases hr
      · intro hr
        exact absurd hr.1.symm (stringsSplit_ne_nil _ _)

theorem LDAPUserSearch_first_match_witness :
    (LDAPUserSearch sampleSettings sampleDirectory "carol" emptyDirWorld).1
      = Except.ok { Entries := [carolEntry] } ∧
    searchedRoots (dirCallsOf emptyDirWorld
      (LDAPUserSearch sampleSettings sampleDirectory "carol" emptyDirWorld).2)
      = ["ou=a"] ++ ["ou=b"] :=
  (LDAPUserSearch_first_match sampleSettings sampleDirectory "carol" emptyDirWorld).2.1
    ["ou=a"] "ou=b" [] [carolEntry] rfl rfl (by decide)
    (by intro d hd; rw [List.mem_singleton.mp hd]; rfl) rfl (by decide)

/-! ## `LDAPUserSync` -/

theorem appendEntries_eq (cfg : LDAPSettings) (entries : List Entry) (userList : List UserList) :
    appendEntries cfg entries userList = userList ++ entries.map (entryUserInfo cfg) := by
  induction entries generalizing userList with
  | nil => simp [appendEntries]
  | cons e es ih => simp [appendEntries, ih]

/-- The loop of `LDAPUserSync`: it only appends searches to the log; when it ends
without error it has collected, after the users it started with, one user per entry
of every root; and it ends without error when every root answers. -/
theorem syncLoop_spec (cfg : LDAPSettings) (dir : Directory) (l : LDAPServer)
    (roots : List String) (userList : List UserList) (w : DirWorld) :
    ∃ issued : List String,
      (syncLoop cfg dir l roots userList w).2 =
        { w with log := w.log ++
            issued.map (fun dn => DirCall.Search l.Conn dn personFilter) } ∧
      (∀ out, (syncLoop cfg dir l roots userList w).1 = Except.ok out →
        out = userList ++ (personEntries dir roots).map (entryUserInfo cfg)) ∧
      ((∀ d ∈ roots, ∃ entries, dir.search d personFilter = Except.ok entries) →
        (syncLoop cfg dir l roots userList w).1
          = Except.ok (userList ++ (personEntries dir roots).map (entryUserInfo cfg))) := by
  induction roots generalizing userList w with
  | nil => exact ⟨[], by simp [syncLoop, personEntries]⟩
  | cons dn rest ih =>
    cases h : dir.search dn personFilter with
    | error msg =>
      refine ⟨[dn], by simp [syncLoop, h, DirWorld.record], by simp [syncLoop, h], ?_⟩
      intro hall
      obtain ⟨entries, he⟩ := hall dn (List.mem_cons_self _ _)
      rw [h] at he
      cases he
    | ok entries =>
      obtain ⟨issued, hw, hout, hok⟩ := ih (appendEntries cfg entries userList)
        (w.record (DirCall.Search l.Conn dn personFilter))
      have hloop : syncLoop cfg dir l (dn :: rest) userList w
          = syncLoop cfg dir l rest (appendEntries cfg entries userList)
              (w.record (DirCall.Search l.Conn dn personFilter)) := by
        simp [syncLoop, h]
      have hpe : personEntries dir (dn :: rest) = entries ++ personEntries dir rest := by
        simp [personEntries, h]
      refine ⟨dn :: issued, ?_, ?_, ?_⟩
      · rw [hloop, hw]; simp [DirWorld.record]
      · intro out ho
        rw [hloop] at ho
        rw [hout out ho, hpe, appendEntries_eq]; simp
      · intro hall
        rw [hloop, hok (fun d hd => hall d (List.mem_cons_of_mem _ hd)), hpe, appendEntries_eq]
        simp

/-- `LDAPUserSync` once `Connect` has succeeded. -/
theorem LDAPUserSync_connected (cfg : LDAPSettings) (dir : Directory) (w : DirWorld)
    (hdial : dir.dial cfg.Host = none)
    (hbind : dir.simpleBind cfg.BindUserDN cfg.BindUserPassword = none) :
    LDAPUserSync cfg dir w =
      match syncLoop cfg dir (connServer cfg w) (stringsSplit cfg.SearchDN '&') []
          (connWorld cfg w) with
      | (Except.error err, w) => (Except.error err, w)
      | (Except.ok userList, w) =>
        match dir.syncUsers (userList.map userListAuthUser) with
        | some msg => (Except.error (Err.ext msg),
            w.record (DirCall.SyncUsers (userList.map userListAuthUser)))
        | none => (Except.ok (), w.record (DirCall.SyncUsers (userList.map userListAuthUser))) := by
  simp [LDAPUserSync, Connect, DirWorld.record, connServer, connWorld, hdial, hbind]

/-- C8: the list `LDAPUserSync` passes to `SyncUsers` holds, in order, one user per
entry of every search root, and `SyncUsers` is reached when the connection and every
search succeed. The user mapped from an entry is inactive if and only if the entry's
userAccountControl value is "514" or "66050"; so 514 and 66050 map to inactive, 512
and 66048 to active; and every mapped user has an empty password and the origin tag
"LDAP". -/
theorem LDAPUserSync_active_flag (cfg : LDAPSettings) (dir : Directory) (w : DirWorld) :
    (∀ users, DirCall.SyncUsers users ∈ dirCallsOf w (LDAPUserSync cfg dir w).2 →
      users = (personEntries dir (stringsSplit cfg.SearchDN '&')).map
        (fun value => userListAuthUser (entryUserInfo cfg value))) ∧
    (dir.dial cfg.Host = none →
      dir.simpleBind cfg.BindUserDN cfg.BindUserPassword = none →
      (∀ d ∈ stringsSplit cfg.SearchDN '&',
        ∃ entries, dir.search d personFilter = Except.ok entries) →
      DirCall.SyncUsers ((personEntries dir (stringsSplit cfg.SearchDN '&')).map
        (fun value => userListAuthUser (entryUserInfo cfg value)))
        ∈ dirCallsOf w (LDAPUserSync cfg dir w).2) ∧
    (∀ value : Entry,
      ((userListAuthUser (entryUserInfo cfg value)).IsActive = false ↔
        (value.GetAttributeValue "userAccountControl" = "514" ∨
         value.GetAttributeValue "userAccountControl" = "66050")) ∧
      (value.GetAttributeValue "userAccountControl" = "514" →
        (userListAuthUser (entryUserInfo cfg value)).IsActive = false) ∧
      (value.GetAttributeValue "userAccountControl" = "66050" →
        (userListAuthUser (entryUserInfo cfg value)).IsActive = false) ∧
      (value.GetAttributeValue "userAccountControl" = "512" →
        (userListAuthUser (entryUserInfo cfg value)).IsActive = true) ∧
      (value.GetAttributeValue "userAccountControl" = "66048" →
        (userListAuthUser (entryUserInfo cfg value)).IsActive = true) ∧
      (userListAuthUser (entryUserInfo cfg value)).Password = "" ∧
      (userListAuthUser (entryUserInfo cfg value)).UserFrom = "LDAP") := by
  have hflag : ∀ value : Entry,
      ((userListAuthUser (entryUserInfo cfg value)).IsActive = false ↔
        (value.GetAttributeValue "userAccountControl" = "514" ∨
         value.GetAttributeValue "userAccountControl" = "66050")) := by
    intro value
    by_cases h : value.GetAttributeValue "userAccountControl" = "514"
        ∨ value.GetAttributeValue "userAccountControl" = "66050"
    · simp [userListAuthUser, entryUserInfo, h]
    · simp [userListAuthUser, entryUserInfo, h]
  refine ⟨?_, ?_, ?_⟩
  · intro users
    cases hd : dir.dial cfg.Host with
    | some m => simp [LDAPUserSync, Connect, DirWorld.record, hd, dirCallsOf]
    | none =>
      cases hb : dir.simpleBind cfg.BindUserDN cfg.BindUserPassword with
      | some m => simp [LDAPUserSync, Connect, DirWorld.record, hd, hb, dirCallsOf]
      | none =>
        obtain ⟨issued, hw, hout, -⟩ := syncLoop_spec cfg dir (connServer cfg w)
          (stringsSplit cfg.SearchDN '&') [] (connWorld cfg w)
        rw [LDAPUserSync_connected cfg dir w hd hb]
        rcases hres : syncLoop cfg dir (connServer cfg w) (stringsSplit cfg.SearchDN '&') []
          (connWorld cfg w) with ⟨r, w'⟩
        rw [hres] at hw hout
        simp only at hw hout
        subst hw
        cases r with
        | error e => simp [dirCallsOf, connWorld]
        | ok userList =>
          have hul := hout userList rfl
          subst hul
          simp only [dirCallsOf, connWorld, DirWorld.record]
          split <;> simp <;> exact fun h => h
  · intro hd hb hall
    obtain ⟨issued, hw, -, hok⟩ := syncLoop_spec cfg dir (connServer cfg w)
      (stringsSplit cfg.SearchDN '&') [] (connWorld cfg w)
    have hok := hok hall
    rw [LDAPUserSync_connected cfg dir w hd hb]
    rcases hres : syncLoop cfg dir (connServer cfg w) (stringsSplit cfg.SearchDN '&') []
      (connWorld cfg w) with ⟨r, w'⟩
    rw [hres] at hw hok
    simp only at hw hok
    subst hw hok
    simp only [dirCallsOf, connWorld, DirWorld.record]
    split <;> simp
  · intro value
    refine ⟨hflag value, fun h => (hflag value).mpr (Or.inl h),
      fun h => (hflag value).mpr (Or.inr h), ?_, ?_, rfl, rfl⟩
    · intro h
      have hn : ¬ ((userListAuthUser (entryUserInfo cfg value)).IsActive = false) := by
        rw [hflag value, h]; decide
      simpa using hn
    · intro h
      have hn : ¬ ((userListAuthUser (entryUserInfo cfg value)).IsActive = false) := by
        rw [hflag value, h]; decide
      simpa using hn

theorem LDAPUserSync_active_flag_witness :
    DirCall.SyncUsers ((personEntries sampleDirectory
        (stringsSplit sampleSettings.SearchDN '&')).map
        (fun value => userListAuthUser (entryUserInfo sampleSettings value)))
      ∈ dirCallsOf emptyDirWorld (LDAPUserSync sampleSettings sampleDirectory emptyDirWorld).2 ∧
    (userListAuthUser (entryUserInfo sampleSettings carolEntry)).IsActive = false ∧
    (userListAuthUser (entryUserInfo sampleSettings daveEntry)).IsActive = true :=
  ⟨(LDAPUserSync_active_flag sampleSettings sampleDirectory emptyDirWorld).2.1 rfl rfl
      (by
        intro d _
        by_cases h : d = "ou=b"
        · exact ⟨[carolEntry, daveEntry], by simp [sampleDirectory, h, personFilter]⟩
        · exact ⟨[], by simp [sampleDirectory, h]⟩),
   ((LDAPUserSync_active_flag sampleSettings sampleDirectory emptyDirWorld).2.2
      carolEntry).2.1 rfl,
   ((LDAPUserSync_active_flag sampleSettings sampleDirectory emptyDirWorld).2.2
      daveEntry).2.2.2.1 rfl⟩

/-! ## Directory sessions -/

theorem searchLoop_sessions (cfg : LDAPSettings) (dir : Directory) (l : LDAPServer)
    (username : String) (roots : List String) (w : DirWorld) :
    (searchLoop cfg dir l username roots w).2.sessions = w.sessions ∧
    (searchLoop cfg dir l username roots w).2.next = w.next := by
  obtain ⟨issued, -, hw, -⟩ := searchLoop_spec cfg dir l username roots w
  rw [hw]
  exact ⟨rfl, rfl⟩

theorem syncLoop_sessions (cfg : LDAPSettings) (dir : Directory) (l : LDAPServer)
    (roots : List String) (userList : List UserList) (w : DirWorld) :
    (syncLoop cfg dir l roots userList w).2.sessions = w.sessions := by
  obtain ⟨issued, hw, -⟩ := syncLoop_spec cfg dir l roots userList w
  rw [hw]

/-- The sessions open after `LDAPUserSearch`: one more than before when the dial
succeeded, the same when it failed. -/
theorem LDAPUserSearch_sessions (cfg : LDAPSettings) (dir : Directory) (username : String)
    (w : DirWorld) :
    (LDAPUserSearch cfg dir username w).2.sessions =
      (if dir.dial cfg.Host = none then w.sessions ++ [w.next] else w.sessions) ∧
    (LDAPUserSearch cfg dir username w).2.next =
      (if dir.dial cfg.Host = none then w.next + 1 else w.next) := by
  cases hd : dir.dial cfg.Host with
  | some m => simp [LDAPUserSearch, Connect, DirWorld.record, hd]
  | none =>
    cases hb : dir.simpleBind cfg.BindUserDN cfg.BindUserPassword with
    | some m => simp [LDAPUserSearch, Connect, DirWorld.record, hd, hb]
    | none =>
      rw [LDAPUserSearch_connected cfg dir username w hd hb]
      have h := searchLoop_sessions cfg dir (connServer cfg w) username
        (stringsSplit cfg.SearchDN '&') (connWorld cfg w)
      rw [h.1, h.2]
      simp [connWorld]

/-- C10, as stated, fails: starting with no open session, `LDAPUserSearch` returns
successfully with session 0 still open, and `LDAPUserAuthentication` returns
successfully with sessions 0 and 1 still open. -/
theorem directory_sessions_left_open :
    emptyDirWorld.sessions = [] ∧
    (LDAPUserSearch sampleSettings sampleDirectory "carol" emptyDirWorld).1
      = Except.ok { Entries := [carolEntry] } ∧
    (LDAPUserSearch sampleSettings sampleDirectory "carol" emptyDirWorld).2.sessions = [0] ∧
    (LDAPUserAuthentication sampleSettings sampleDirectory "carol" [0x70, 0x77]
      emptyDirWorld).1 = Except.ok { Entries := [carolEntry] } ∧
    (LDAPUserAuthentication sampleSettings sampleDirectory "carol" [0x70, 0x77]
      emptyDirWorld).2.sessions = [0, 1] :=
  ⟨rfl, rfl, rfl, rfl, rfl⟩

/-- C10 (amended): no directory operation releases a session. When the dial fails,
the open sessions after each operation are those open before. When the dial
succeeds, every session open before is still open afterwards, together with the
sessions the operation dialed: one after `LDAPUserSearch` and `LDAPUserSync`; after
`LDAPUserAuthentication` and `LDAPUserResetPassword`, one when the service bind
failed, and two (their own and the one of the `LDAPUserSearch` they call) when it
succeeded. -/
theorem directory_sessions_never_released (cfg : LDAPSettings) (dir : Directory)
    (username : String) (password : List Nat) (w : DirWorld) :
    (dir.dial cfg.Host ≠ none →
      (LDAPUserSearch cfg dir username w).2.sessions = w.sessions ∧
      (LDAPUserAuthentication cfg dir username password w).2.sessions = w.sessions ∧
      (LDAPUserResetPassword cfg dir username password w).2.sessions = w.sessions ∧
      (LDAPUserSync cfg dir w).2.sessions = w.sessions) ∧
    (dir.dial cfg.Host = none →
      (LDAPUserSearch cfg dir username w).2.sessions = w.sessions ++ [w.next] ∧
      (LDAPUserSync cfg dir w).2.sessions = w.sessions ++ [w.next] ∧
      (dir.simpleBind cfg.BindUserDN cfg.BindUserPassword ≠ none →
        (LDAPUserAuthentication cfg dir username password w).2.sessions
          = w.sessions ++ [w.next] ∧
        (LDAPUserResetPassword cfg dir username password w).2.sessions
          = w.sessions ++ [w.next]) ∧
      (dir.simpleBind cfg.BindUserDN cfg.BindUserPassword = none →
        (LDAPUserAuthentication cfg dir username password w).2.sessions
          = w.sessions ++ [w.next, w.next + 1] ∧
        (LDAPUserResetPassword cfg dir username password w).2.sessions
          = w.sessions ++ [w.next, w.next + 1])) := by
  constructor
  · intro hd
    cases hdial : dir.dial cfg.Host with
    | none => exact absurd hdial hd
    | some m =>
      simp [LDAPUserSearch, LDAPUserAuthentication, LDAPUserResetPassword, LDAPUserSync,
        Connect, DirWorld.record, hdial]
  · intro hd
    refine ⟨by simp [(LDAPUserSearch_sessions cfg dir username w).1, hd], ?_, ?_, ?_⟩
    · cases hb : dir.simpleBind cfg.BindUserDN cfg.BindUserPassword with
      | some m => simp [LDAPUserSync, Connect, DirWorld.record, hd, hb]
      | none =>
        rw [LDAPUserSync_connected cfg dir w hd hb]
        have h := syncLoop_sessions cfg dir (connServer cfg w)
          (stringsSplit cfg.SearchDN '&') [] (connWorld cfg w)
        rcases hres : syncLoop cfg dir (connServer cfg w) (stringsSplit cfg.SearchDN '&') []
          (connWorld cfg w) with ⟨r, w'⟩
        rw [hres] at h
        simp only at h
        cases r with
        | error e => simp [h, connWorld]
        | ok userList =>
          simp only
          split <;> simp [DirWorld.record, h, connWorld]
    · intro hb
      cases hbind : dir.simpleBind cfg.BindUserDN cfg.BindUserPassword with
      | none => exact absurd hbind hb
      | some m =>
        simp [LDAPUserAuthentication, LDAPUserResetPassword, Connect, DirWorld.record, hd,
          hbind]
    · intro hb
      have hconn : Connect cfg dir w = (Except.ok (connServer cfg w), connWorld cfg w) := by
        simp [Connect, DirWorld.record, connServer, connWorld, hd, hb]
      have hs := LDAPUserSearch_sessions cfg dir username (connWorld cfg w)
      rcases hres : LDAPUserSearch cfg dir username (connWorld cfg w) with ⟨r, w'⟩
      rw [hres] at hs
      simp only [hd, if_true] at hs
      have hsess : w'.sessions = w.sessions ++ [w.next, w.next + 1] := by
        rw [hs.1]; simp [connWorld]
      constructor
      · simp only [LDAPUserAuthentication, hconn, hres]
        cases r with
        | error e => simpa using hsess
        | ok res =>
          cases hes : res.Entries with
          | nil => simpa [hes] using hsess
          | cons e es =>
            simp only [hes]
            split <;> simpa [DirWorld.record] using hsess
      · simp only [LDAPUserResetPassword, hconn, hres]
        cases r with
        | error e => simpa using hsess
        | ok res =>
          cases hes : res.Entries with
          | nil => simpa [hes] using hsess
          | cons e es =>
            simp only [hes]
            split <;> simpa [DirWorld.record] using hsess

theorem directory_sessions_never_released_witness :
    (LDAPUserSearch sampleSettings sampleDirectory "carol" emptyDirWorld).2.sessions
      = emptyDirWorld.sessions ++ [emptyDirWorld.next] ∧
    (LDAPUserResetPassword sampleSettings sampleDirectory "carol" [0x70, 0x77]
      emptyDirWorld).2.sessions
      = emptyDirWorld.sessions ++ [emptyDirWorld.next, emptyDirWorld.next + 1] :=
  have h := (directory_sessions_never_released sampleSettings sampleDirectory "carol"
    [0x70, 0x77] emptyDirWorld).2 rfl
  ⟨h.1, (h.2.2.2 rfl).2⟩

/-! ## `LDAPUserResetPassword`: the password encodings -/

/-- SHA-512 of "abc" (the one-block example of FIPS 180-4). -/
theorem sha512Sum_abc :
    sha512Sum (asciiBytes "abc") =
      [0xdd, 0xaf, 0x35, 0xa1, 0x93, 0x61, 0x7a, 0xba, 0xcc, 0x41, 0x73, 0x49, 0xae, 0x20,
       0x41, 0x31, 0x12, 0xe6, 0xfa, 0x4e, 0x89, 0xa9, 0x7e, 0xa2, 0x0a, 0x9e, 0xee, 0xe6,
       0x4b, 0x55, 0xd3, 0x9a, 0x21, 0x92, 0x99, 0x2a, 0x27, 0x4f, 0xc1, 0xa8, 0x36, 0xba,
       0x3c, 0x23, 0xa3, 0xfe, 0xeb, 0xbd, 0x45, 0x4d, 0x44, 0x23, 0x64, 0x3c, 0xe8, 0x0e,
       0x2a, 0x9a, 0xc9, 0x4f, 0xa5, 0x4c, 0xa4, 0x9f] := by
  decide!

/-- The test vectors of RFC 4648, section 10. -/
theorem base64StdEncode_vectors :
    base64StdEncode (asciiBytes "") = asciiBytes "" ∧
    base64StdEncode (asciiBytes "f") = asciiBytes "Zg==" ∧
    base64StdEncode (asciiBytes "fo") = asciiBytes "Zm8=" ∧
    base64StdEncode (asciiBytes "foo") = asciiBytes "Zm9v" ∧
    base64StdEncode (asciiBytes "foob") = asciiBytes "Zm9vYg==" ∧
    base64StdEncode (asciiBytes "fooba") = asciiBytes "Zm9vYmE=" ∧
    base64StdEncode (asciiBytes "foobar") = asciiBytes "Zm9vYmFy" := by
  decide!

/-- The value written for the password "abc" on a POSIX-style directory. -/
theorem posix_value_abc :
    asciiBytes "\x7bSHA512\x7d" ++ base64StdEncode (sha512Sum (asciiBytes "abc")) =
      asciiBytes ("\x7bSHA512\x7d3a81oZNherrMQXNJriBBMRLm+k6JqX6iCp7u5ktV05ohkpkqJ0/BqDa6PCOj"
        ++ "/uu9RU1EI2Q86A4qmslPpUyknw==") := by
  decide!

theorem ite_snd_pos {c : Prop} [Decidable c] {x y : Nat × Nat} (hx : 1 ≤ x.2) (hy : 1 ≤ y.2) :
    1 ≤ (if c then x else y).2 := by
  split <;> assumption

/-- `DecodeRune` consumes at least one byte of a non-empty input. -/
theorem DecodeRune_size_pos (b : Nat) (rest : List Nat) : 1 ≤ (DecodeRune (b :: rest)).2 := by
  unfold DecodeRune
  simp only []
  repeat' first
    | exact Nat.le_refl 1
    | exact Nat.le_of_ble_eq_true rfl
    | apply ite_snd_pos

/-- The encoder loop does not depend on the fuel once there is one unit of fuel per
input byte: any such amount gives the same output. -/
theorem utf16leLoop_fuel (n : Nat) : ∀ (s : List Nat) (fuel₁ fuel₂ : Nat),
    s.length ≤ n → n ≤ fuel₁ → n ≤ fuel₂ → utf16leLoop fuel₁ s = utf16leLoop fuel₂ s := by
  induction n with
  | zero =>
    intro s fuel₁ fuel₂ hs _ _
    have hnil : s = [] := List.length_eq_zero.mp (Nat.le_zero.mp hs)
    subst hnil
    cases fuel₁ <;> cases fuel₂ <;> simp [utf16leLoop]
  | succ n ih =>
    intro s fuel₁ fuel₂ hs h1 h2
    cases s with
    | nil => cases fuel₁ <;> cases fuel₂ <;> simp [utf16leLoop]
    | cons b rest =>
      cases fuel₁ with
      | zero => omega
      | succ f1 =>
        cases fuel₂ with
        | zero => omega
        | succ f2 =>
          have hpos : 1 ≤ (if b < 0x80 then (b, 1) else DecodeRune (b :: rest)).2 := by
            split_ifs
            · simp
            · exact DecodeRune_size_pos b rest
          have hlen : ((b :: rest).drop
              (if b < 0x80 then (b, 1) else DecodeRune (b :: rest)).2).length ≤ n := by
            simp only [List.length_drop, List.length_cons] at hs ⊢
            omega
          simp only [utf16leLoop]
          rw [ih _ f1 f2 hlen (by omega) (by omega)]

/-- The fuel `utf16leEncode` gives the loop is enough: more fuel does not change the
result. -/
theorem utf16leEncode_fuel (s : List Nat) (fuel : Nat) (h : s.length ≤ fuel) :
    utf16leLoop fuel s = utf16leEncode s :=
  utf16leLoop_fuel s.length s fuel s.length (Nat.le_refl _) h (Nat.le_refl _)

theorem utf16leLoop_ascii (bs : List Nat) (hascii : ∀ b ∈ bs, b < 0x80) (fuel : Nat)
    (hfuel : bs.length ≤ fuel) :
    utf16leLoop fuel bs = bs.flatMap (fun b => [b, 0]) := by
  induction bs generalizing fuel with
  | nil => cases fuel <;> simp [utf16leLoop]
  | cons b rest ih =>
    cases fuel with
    | zero => simp at hfuel
    | succ n =>
      have hb : b < 0x80 := hascii b (List.mem_cons_self _ _)
      have hrest : ∀ x ∈ rest, x < 0x80 := fun x hx => hascii x (List.mem_cons_of_mem _ hx)
      have hlen : rest.length ≤ n := by simpa using hfuel
      have h1 : b % 256 = b := Nat.mod_eq_of_lt (by omega)
      have h2 : b >>> 8 = 0 := by
        rw [Nat.shiftRight_eq_div_pow]
        exact Nat.div_eq_of_lt (by omega)
      have h3 : b ≤ 0xFFFF := by omega
      simp [utf16leLoop, utf16leRune, hb, h1, h2, h3, ih hrest n hlen]

/-- On ASCII input the UTF-16 little-endian encoding is each byte followed by a zero
byte, with no byte order mark. -/
theorem utf16leEncode_ascii (bs : List Nat) (hascii : ∀ b ∈ bs, b < 0x80) :
    utf16leEncode bs = bs.flatMap (fun b => [b, 0]) :=
  utf16leLoop_ascii bs hascii bs.length (Nat.le_refl _)

/-- The encoding of a password that mixes one-, two-, three- and four-byte runes. -/
theorem utf16leEncode_example :
    utf16leEncode [0x22, 0x70, 0xC3, 0xA4, 0xE2, 0x82, 0xAC, 0xF0, 0x9F, 0x98, 0x80, 0x22]
      = [0x22, 0x00, 0x70, 0x00, 0xE4, 0x00, 0xAC, 0x20, 0x3D, 0xD8, 0x00, 0xDE, 0x22, 0x00] := by
  decide!

/-- The calls of `LDAPUserSearch` contain no modify request. -/
theorem LDAPUserSearch_log (cfg : LDAPSettings) (dir : Directory) (username : String)
    (w : DirWorld) :
    ∃ cs, (LDAPUserSearch cfg dir username w).2.log = w.log ++ cs ∧
      ∀ conn req, DirCall.Modify conn req ∉ cs := by
  cases hd : dir.dial cfg.Host with
  | some m =>
    exact ⟨[DirCall.DialURL cfg.Host],
      by simp [LDAPUserSearch, Connect, DirWorld.record, hd], by simp⟩
  | none =>
    cases hb : dir.simpleBind cfg.BindUserDN cfg.BindUserPassword with
    | some m =>
      exact ⟨[DirCall.DialURL cfg.Host,
          DirCall.SimpleBind w.next cfg.BindUserDN cfg.BindUserPassword],
        by simp [LDAPUserSearch, Connect, DirWorld.record, hd, hb], by simp⟩
    | none =>
      obtain ⟨issued, -, hw, -⟩ := searchLoop_spec cfg dir (connServer cfg w) username
        (stringsSplit cfg.SearchDN '&') (connWorld cfg w)
      refine ⟨[DirCall.DialURL cfg.Host,
          DirCall.SimpleBind w.next cfg.BindUserDN cfg.BindUserPassword] ++
          issued.map (fun dn => DirCall.Search (connServer cfg w).Conn dn
            (userFilter cfg username)), ?_, by simp⟩
      rw [LDAPUserSearch_connected cfg dir username w hd hb, hw]
      simp [connWorld]

/-- The calls of `LDAPUserResetPassword` once its own `Connect` has succeeded: calls
that are not modify requests, followed by at most one modify request, which carries
the change built by `passwordChange` for the DN of an entry. -/
theorem LDAPUserResetPassword_log (cfg : LDAPSettings) (dir : Directory) (username : String)
    (password : List Nat) (w : DirWorld) (hdial : dir.dial cfg.Host = none)
    (hbind : dir.simpleBind cfg.BindUserDN cfg.BindUserPassword = none) :
    ∃ cs, (∀ conn req, DirCall.Modify conn req ∉ cs) ∧
      ((LDAPUserResetPassword cfg dir username password w).2.log = w.log ++ cs ∨
       ∃ e : Entry, (LDAPUserResetPassword cfg dir username password w).2.log =
          w.log ++ (cs ++ [DirCall.Modify w.next
            (passwordChange cfg (NewModifyRequest e.DN) password)])) := by
  have hconn : Connect cfg dir w = (Except.ok (connServer cfg w), connWorld cfg w) := by
    simp [Connect, DirWorld.record, connServer, connWorld, hdial, hbind]
  obtain ⟨cs, hlog, hcs⟩ := LDAPUserSearch_log cfg dir username (connWorld cfg w)
  refine ⟨[DirCall.DialURL cfg.Host,
    DirCall.SimpleBind w.next cfg.BindUserDN cfg.BindUserPassword] ++ cs, ?_, ?_⟩
  · intro conn req hm
    simp at hm
    exact hcs conn req hm
  · rcases hres : LDAPUserSearch cfg dir username (connWorld cfg w) with ⟨r, w'⟩
    rw [hres] at hlog
    simp only at hlog
    simp only [LDAPUserResetPassword, hconn, hres]
    rcases r with err | ⟨⟨entries⟩⟩
    · left
      simp [hlog, connWorld]
    · cases entries with
      | nil =>
        left
        simp [hlog, connWorld]
      | cons e es =>
        right
        refine ⟨e, ?_⟩
        simp only
        split <;> simp [DirWorld.record, hlog, connWorld, connServer]

/-- C7: every modify request `LDAPUserResetPassword` sends replaces one attribute with
one value: when the configured user attribute is "uid", the attribute 'userPassword'
with the tag SHA512 in braces followed by the standard base64 of the SHA-512 digest
of the password bytes; otherwise the attribute 'unicodePwd' with the UTF-16
little-endian encoding (no byte order mark) of the password between double quotes.
The request is sent, for the first entry found, when the connection and the search
succeed. For the same password the two values are different. -/
theorem LDAPUserResetPassword_encoding (cfg : LDAPSettings) (dir : Directory)
    (username : String) (password : List Nat) (w : DirWorld) :
    (∀ conn req, DirCall.Modify conn req
        ∈ dirCallsOf w (LDAPUserResetPassword cfg dir username password w).2 →
      ∃ userDN, req =
        { DN := userDN,
          Changes := [
            if cfg.UserAttribute = "uid" then
              { Operation := ReplaceAttribute, AttrType := "userPassword",
                AttrVals := [asciiBytes "\x7bSHA512\x7d"
                  ++ base64StdEncode (sha512Sum password)] }
            else
              { Operation := ReplaceAttribute, AttrType := "unicodePwd",
                AttrVals := [utf16leEncode ([0x22] ++ password ++ [0x22])] }] }) ∧
    (dir.dial cfg.Host = none →
      dir.simpleBind cfg.BindUserDN cfg.BindUserPassword = none →
      ∀ entry entries,
        (LDAPUserSearch cfg dir username (connWorld cfg w)).1
          = Except.ok { Entries := entry :: entries } →
        ∃ req, req.DN = entry.DN ∧
          DirCall.Modify w.next req
            ∈ dirCallsOf w (LDAPUserResetPassword cfg dir username password w).2) ∧
    asciiBytes "\x7bSHA512\x7d" ++ base64StdEncode (sha512Sum password)
      ≠ utf16leEncode ([0x22] ++ password ++ [0x22]) := by
  have hquote : asciiBytes "\"" = [0x22] := by decide
  have hchange : ∀ dn, passwordChange cfg (NewModifyRequest dn) password =
      { DN := dn,
        Changes := [
          if cfg.UserAttribute = "uid" then
            { Operation := ReplaceAttribute, AttrType := "userPassword",
              AttrVals := [asciiBytes "\x7bSHA512\x7d"
                ++ base64StdEncode (sha512Sum password)] }
          else
            { Operation := ReplaceAttribute, AttrType := "unicodePwd",
              AttrVals := [utf16leEncode ([0x22] ++ password ++ [0x22])] }] } := by
    intro dn
    by_cases h : cfg.UserAttribute = "uid"
    · simp [passwordChange, NewModifyRequest, ModifyRequest.Replace, h]
    · simp [passwordChange, NewModifyRequest, ModifyRequest.Replace, h, hquote]
  refine ⟨?_, ?_, ?_⟩
  · intro conn req
    cases hd : dir.dial cfg.Host with
    | some m => simp [LDAPUserResetPassword, Connect, DirWorld.record, hd, dirCallsOf]
    | none =>
      cases hb : dir.simpleBind cfg.BindUserDN cfg.BindUserPassword with
      | some m => simp [LDAPUserResetPassword, Connect, DirWorld.record, hd, hb, dirCallsOf]
      | none =>
        obtain ⟨cs, hcs, hlog⟩ := LDAPUserResetPassword_log cfg dir username password w hd hb
        rcases hlog with hlog | ⟨e, hlog⟩
        · rw [dirCallsOf_append w _ _ hlog]
          intro hm
          exact absurd hm (hcs conn req)
        · rw [dirCallsOf_append w _ _ hlog]
          intro hm
          rcases List.mem_append.mp hm with hm | hm
          · exact absurd hm (hcs conn req)
          · refine ⟨e.DN, ?_⟩
            rw [← hchange]
            have heq := List.mem_singleton.mp hm
            injection heq with _ hreq
  · intro hd hb entry entries hsearch
    have hconn : Connect cfg dir w = (Except.ok (connServer cfg w), connWorld cfg w) := by
      simp [Connect, DirWorld.record, connServer, connWorld, hd, hb]
    obtain ⟨cs, hlog, -⟩ := LDAPUserSearch_log cfg dir username (connWorld cfg w)
    rcases hres : LDAPUserSearch cfg dir username (connWorld cfg w) with ⟨r, w'⟩
    rw [hres] at hlog hsearch
    simp only at hlog hsearch
    subst hsearch
    refine ⟨passwordChange cfg (NewModifyRequest entry.DN) password, by rw [hchange], ?_⟩
    simp only [LDAPUserResetPassword, hconn, hres]
    split <;>
      simp [dirCallsOf, DirWorld.record, hlog, connWorld, connServer]
  · intro h
    have h1 : asciiBytes "\x7bSHA512\x7d" = [123, 83, 72, 65, 53, 49, 50, 125] := by decide
    have h2 := congrArg List.head? h
    simp [h1, utf16leEncode, utf16leLoop, utf16leRune] at h2

theorem LDAPUserResetPassword_encoding_witness :
    ∃ req, req.DN = carolEntry.DN ∧
      DirCall.Modify emptyDirWorld.next req ∈ dirCallsOf emptyDirWorld
        (LDAPUserResetPassword sampleSettings sampleDirectory "carol" (asciiBytes "abc")
          emptyDirWorld).2 :=
  (LDAPUserResetPassword_encoding sampleSettings sampleDirectory "carol" (asciiBytes "abc")
    emptyDirWorld).2.1 rfl rfl carolEntry [] rfl

end OpsApi
